import Mathlib

/-!
Verification of the membership-card automation bridge (Acuity → PassKit).

This file gives a shallow embedding of the core reconciliation logic of
`src/lib/helpers.js` and proves the frozen specification claims about it.

JavaScript values that flow through the order pipeline are modelled by the
inductive type `Js` (JSON-like trees; `undef` is JavaScript's `undefined`).
JavaScript strings are Lean `String`s; `trim`, `toUpperCase`, `toLowerCase`
and `includes` are modelled character-wise on the ASCII range, which is where
every certificate-code and status comparison in the source operates.

The effectful functions (`processNewMembershipOrder`,
`cancelMembershipByCertificateCode`, …) are embedded in explicit
state-passing style: network responses come from an `Env` of oracles, the
Redis certificate→order mapping is a `Store` threaded through the run, and
every externally visible action is recorded in a trace of `Eff` events.
Errors (JavaScript `throw`) are `Except.error` carrying the thrown message.

For one claim (termination of `extractCertificateCode` on cyclic input) the
tree model cannot express the input, so a second, clearly separated
reference-heap model (`HVal`/`HHeap`) of the same function is used there.
-/

/-- JavaScript values as seen by the helpers: JSON-like trees plus `undefined`.
Numbers are modelled as integers (every numeric literal the claims touch is
an integer). -/
inductive Js where
  | null
  | undef
  | bool (b : Bool)
  | num (n : Int)
  | str (s : String)
  | arr (elems : List Js)
  | obj (fields : List (String × Js))
deriving Repr

mutual

/-- Structural size of a `Js` tree, used as the termination measure of the
certificate-scan loop. -/
def jsSize : Js → Nat
  | .null => 1
  | .undef => 1
  | .bool _ => 1
  | .num _ => 1
  | .str _ => 1
  | .arr xs => 1 + jsSizeList xs
  | .obj fs => 1 + jsSizeFields fs

def jsSizeList : List Js → Nat
  | [] => 0
  | x :: xs => jsSize x + jsSizeList xs

def jsSizeFields : List (String × Js) → Nat
  | [] => 0
  | (_, v) :: fs => jsSize v + jsSizeFields fs

end

/-- JavaScript truthiness (`Boolean(v)`): `null`, `undefined`, `false`, `0`
and the empty string are falsy; arrays and objects are always truthy. -/
def jsTruthy : Js → Bool
  | .null => false
  | .undef => false
  | .bool b => b
  | .num n => n != 0
  | .str s => s != ""
  | .arr _ => true
  | .obj _ => true

/-- Property read `v[k]` (also `v?.[k]`): `none` models `undefined`.
Reads on non-objects yield `undefined` (the source never reads named
properties off arrays). -/
def jsGet (v : Js) (k : String) : Option Js :=
  match v with
  | .obj fs => (fs.find? (fun p => p.1 == k)).map (·.2)
  | _ => none

/-- JavaScript `a || b || …` over property reads: the first truthy value. -/
def firstTruthyJs (l : List (Option Js)) : Option Js :=
  l.findSome? (fun o =>
    match o with
    | some v => if jsTruthy v then some v else none
    | none => none)

mutual

/-- JavaScript `String(v)` coercion for the values the pipeline stringifies
(ids and order ids: strings and numbers). -/
def jsToString : Js → String
  | .str s => s
  | .num n => toString n
  | .bool b => if b then "true" else "false"
  | .null => "null"
  | .undef => "undefined"
  | .arr xs => String.intercalate "," (jsToStringList xs)
  | .obj _ => "[object Object]"

def jsToStringList : List Js → List String
  | [] => []
  | x :: xs => jsToString x :: jsToStringList xs

end

/-- ASCII character-class test for the certificate regex `[A-Za-z0-9]`. -/
def isAlnumChar (c : Char) : Bool :=
  (65 ≤ c.toNat && c.toNat ≤ 90) || (97 ≤ c.toNat && c.toNat ≤ 122) ||
    (48 ≤ c.toNat && c.toNat ≤ 57)

/-- Character class `[A-Z0-9]`: what a normalized certificate code is made of. -/
def isUpperAlnumChar (c : Char) : Bool :=
  (65 ≤ c.toNat && c.toNat ≤ 90) || (48 ≤ c.toNat && c.toNat ≤ 57)

/-- JavaScript `String.prototype.toUpperCase` on the ASCII range (the only
range certificate codes inhabit). -/
def jsUpChar (c : Char) : Char :=
  if 97 ≤ c.toNat ∧ c.toNat ≤ 122 then Char.ofNat (c.toNat - 32) else c

/-- JavaScript `String.prototype.toLowerCase` on the ASCII range. -/
def jsLowChar (c : Char) : Char :=
  if 65 ≤ c.toNat ∧ c.toNat ≤ 90 then Char.ofNat (c.toNat + 32) else c

/-- Strip leading and trailing whitespace from a character list. -/
def listTrim (l : List Char) : List Char :=
  ((l.dropWhile Char.isWhitespace).reverse.dropWhile Char.isWhitespace).reverse

/-- JavaScript `String.prototype.trim`: strip leading and trailing
whitespace. -/
def jsTrim (s : String) : String :=
  ⟨listTrim s.data⟩

def jsToLowerStr (s : String) : String := ⟨s.data.map jsLowChar⟩

def jsToUpperStr (s : String) : String := ⟨s.data.map jsUpChar⟩

def listStartsWith : List Char → List Char → Bool
  | _, [] => true
  | [], _ :: _ => false
  | a :: as, b :: bs => a == b && listStartsWith as bs

def listHasInfix (hay pat : List Char) : Bool :=
  listStartsWith hay pat ||
    (match hay with
     | [] => false
     | _ :: t => listHasInfix t pat)

/-- JavaScript `String.prototype.includes`. -/
def strIncludes (s pat : String) : Bool :=
  listHasInfix s.data pat.data

/-- The shape test of `isCertificateCode` (src/lib/helpers.js:249-251):
`/^[A-Za-z0-9]{8}$/.test(value.trim())`. -/
def certShape (s : String) : Bool :=
  (jsTrim s).data.length == 8 && (jsTrim s).data.all isAlnumChar

/-- The source `isCertificateCode(value)` on an arbitrary value: only strings
whose trim matches the 8-alphanumeric regex pass. -/
def isCertificateCode (v : Js) : Bool :=
  match v with
  | .str s => certShape s
  | _ => false

/-- The source `isCertificateCode` specialized to string arguments (how the
cancellation and mapping-store paths call it, always on an already
stringified code). -/
def strIsCertificateCode (s : String) : Bool := certShape s

/-- The source `normalizeCertificateCode(value)` (src/lib/helpers.js:253-255)
on the string arguments the repository passes it:
`String(value || '').trim().toUpperCase()`. -/
def normalizeCertificateCode (s : String) : String :=
  jsToUpperStr (jsTrim s)

/-- The source `isTruthyFlag(value)` (src/lib/helpers.js:301-309). The
argument is an `Option Js`: `none` is the `undefined` of a missing field.
Note the numeric case of the source is `value === 1`. -/
def isTruthyFlag : Option Js → Bool
  | some (.bool b) => b
  | some (.num n) => n == 1
  | some (.str s) =>
    let normalized := jsToLowerStr (jsTrim s)
    normalized == "true" || normalized == "1" || normalized == "yes"
  | _ => false

/-- Result record of `evaluateOrderActivity`: `{ active, reason? }`. -/
structure Activity where
  active : Bool
  reason : Option String
deriving Repr, DecidableEq

/-- The flag field names checked first by `evaluateOrderActivity`
(src/lib/helpers.js:312). -/
def cancellationFlags : List String := ["cancelled", "canceled", "isCancelled", "isCanceled"]

/-- First cancellation flag of the order that `isTruthyFlag` accepts. -/
def flagHit (order : Js) : Option String :=
  cancellationFlags.find? (fun flag => isTruthyFlag (jsGet order flag))

/-- The strict comparison `order?.active === false` of line 319. -/
def isFalseField (o : Option Js) : Bool :=
  match o with
  | some (.bool false) => true
  | _ => false

/-- The `INACTIVE_ORDER_STATUS` set (src/lib/helpers.js:80-88). -/
def inactiveOrderStatus : List String :=
  ["cancelled", "canceled", "expired", "inactive", "voided", "refunded", "failed"]

/-- One iteration of the status loop of lines 330-337: a string status value
signals inactivity when its trimmed lowercase form is a terminal keyword or
contains "cancel" or "expire"; the original value is reported. -/
def statusValueInactive (v : Js) : Option String :=
  match v with
  | .str s =>
    let normalized := jsToLowerStr (jsTrim s)
    if normalized == "" then none
    else if inactiveOrderStatus.contains normalized ||
        strIncludes normalized "cancel" || strIncludes normalized "expire" then
      some s
    else none
  | _ => none

/-- First status-like field of the order that signals inactivity. -/
def statusHit (order : Js) : Option String :=
  ([jsGet order "status", jsGet order "orderStatus",
    jsGet order "subscriptionStatus", jsGet order "membershipStatus"]).findSome?
    (fun o =>
      match o with
      | some v => statusValueInactive v
      | none => none)

/-- The source `evaluateOrderActivity(order)` (src/lib/helpers.js:311-340). -/
def evaluateOrderActivity (order : Js) : Activity :=
  match flagHit order with
  | some flag => ⟨false, some ("Acuity order flag " ++ flag ++ "=true")⟩
  | none =>
    if isFalseField (jsGet order "active") || isFalseField (jsGet order "isActive") then
      ⟨false, some "Acuity order marked inactive"⟩
    else
      match statusHit order with
      | some v => ⟨false, some ("Acuity status indicates inactive: " ++ v)⟩
      | none => ⟨true, none⟩

/-- The key test `/certificate|gift/i.test(key)` of line 587. -/
def keyLooksRelevant (k : String) : Bool :=
  let lk := jsToLowerStr k
  strIncludes lk "certificate" || strIncludes lk "gift"

/-- Whether `value && typeof value === 'object'` holds: arrays and objects
(JavaScript `null` is of type object but falsy). -/
def isObjLike : Js → Bool
  | .arr _ => true
  | .obj _ => true
  | _ => false

def arrEntries (i : Nat) : List Js → List (String × Js)
  | [] => []
  | x :: xs => (toString i, x) :: arrEntries (i + 1) xs

/-- JavaScript `Object.entries(v)`: an array's entries are its elements keyed
by index string. -/
def jsEntries : Js → List (String × Js)
  | .obj fs => fs
  | .arr xs => arrEntries 0 xs
  | _ => []

/-- The string-field scan inside the while loop of lines 585-592: the first
string-valued entry with a relevant key and certificate shape, trimmed. -/
def scanFound : List (String × Js) → Option String
  | [] => none
  | (k, v) :: rest =>
    match v with
    | .str s =>
      if keyLooksRelevant k && certShape s then some (jsTrim s)
      else scanFound rest
    | _ => scanFound rest

/-- The object pushes of the same loop: entry values that are objects are
pushed onto the stack (`stack.push(value)`, so the last pushed is popped
first — the head of the returned list). Only reached when `scanFound` found
no code, in which case the JavaScript loop also pushed every object value. -/
def scanPush (stack : List Js) : List (String × Js) → List Js
  | [] => stack
  | (_, v) :: rest =>
    if isObjLike v then scanPush (v :: stack) rest else scanPush stack rest

theorem jsSizeFields_arrEntries (xs : List Js) (i : Nat) :
    jsSizeFields (arrEntries i xs) = jsSizeList xs := by
  induction xs generalizing i with
  | nil => simp [arrEntries, jsSizeFields, jsSizeList]
  | cons x xs ih => simp [arrEntries, jsSizeFields, jsSizeList, ih]

theorem jsSizeFields_entries (v : Js) : jsSizeFields (jsEntries v) + 1 ≤ jsSize v := by
  cases v <;> simp [jsEntries, jsSize, jsSizeFields, jsSizeFields_arrEntries] <;> omega

theorem jsSize_pos (v : Js) : 1 ≤ jsSize v := by
  cases v <;> simp [jsSize]

theorem scanPush_size (st : List Js) (entries : List (String × Js)) :
    jsSizeList (scanPush st entries) ≤ jsSizeFields entries + jsSizeList st := by
  induction entries generalizing st with
  | nil => simp [scanPush, jsSizeFields]
  | cons e rest ih =>
    obtain ⟨k, v⟩ := e
    by_cases hobj : isObjLike v = true
    · have := ih (v :: st)
      simp [scanPush, hobj, jsSizeFields, jsSizeList] at *
      omega
    · have := ih st
      have := jsSize_pos v
      simp [scanPush, hobj, jsSizeFields, jsSizeList] at *
      omega

/-- The fallback `while (stack.length)` traversal of lines 581-593, on tree
inputs (where it terminates; the reference-heap model below covers cyclic
inputs). -/
def extractLoop (stack : List Js) : Option String :=
  match stack with
  | [] => none
  | current :: rest =>
    if isObjLike current then
      match scanFound (jsEntries current) with
      | some code => some code
      | none => extractLoop (scanPush rest (jsEntries current))
    else extractLoop rest
termination_by jsSizeList stack
decreasing_by
  · have h1 := scanPush_size xs (jsEntries x)
    have h2 := jsSizeFields_entries x
    simp [jsSizeList]
    omega
  · have := jsSize_pos x
    simp [jsSizeList]
    omega

/-- The direct candidate fields of lines 565-574, in source order. -/
def directCandidates (order : Js) : List (Option Js) :=
  [jsGet order "certificateCode",
   jsGet order "certificate_code",
   jsGet order "certificate",
   jsGet order "giftCertificateCode",
   jsGet order "gift_certificate_code",
   jsGet order "giftCertificate",
   (jsGet order "certificate").bind (jsGet · "code"),
   (jsGet order "giftCertificate").bind (jsGet · "code")]

/-- The source `extractCertificateCode(order)` (src/lib/helpers.js:564-596)
on tree-shaped (acyclic) payloads: first direct candidate of certificate
shape, trimmed, else the depth-first fallback scan. -/
def extractCertificateCode (order : Js) : Option String :=
  match (directCandidates order).findSome? (fun c =>
      match c with
      | some (.str s) => if certShape s then some (jsTrim s) else none
      | _ => none) with
  | some code => some code
  | none => extractLoop [order]

/-! ### Reference-heap model of `extractCertificateCode`

JavaScript objects are heap references, so an object can contain itself; the
tree type `Js` cannot express that. `HVal` values refer to objects through
addresses into a heap, and the `while (stack.length)` loop of
`extractCertificateCode` is re-embedded over that heap with a fuel counter:
`none` means the loop has not finished within the given number of
iterations. The source loop has no visited set and no depth bound. -/

inductive HVal where
  | null
  | undef
  | bool (b : Bool)
  | num (n : Int)
  | str (s : String)
  | ref (addr : Nat)
deriving Repr, DecidableEq

/-- A heap: the field list stored at each object address. -/
def HHeap := Nat → List (String × HVal)

/-- Property read over the heap (`v[k]`, `v?.[k]`). -/
def hGet (h : HHeap) (v : HVal) (k : String) : Option HVal :=
  match v with
  | .ref a => ((h a).find? (fun p => p.1 == k)).map (·.2)
  | _ => none

def hIsCertificateCode (v : HVal) : Bool :=
  match v with
  | .str s => certShape s
  | _ => false

/-- `value && typeof value === 'object'` over heap values. -/
def hIsObjLike : HVal → Bool
  | .ref _ => true
  | _ => false

/-- The string-field scan of the loop body, heap version. -/
def hScanFound : List (String × HVal) → Option String
  | [] => none
  | (k, v) :: rest =>
    match v with
    | .str s =>
      if keyLooksRelevant k && certShape s then some (jsTrim s)
      else hScanFound rest
    | _ => hScanFound rest

/-- The object pushes of the loop body, heap version. -/
def hScanPush (stack : List HVal) : List (String × HVal) → List HVal
  | [] => stack
  | (_, v) :: rest =>
    if hIsObjLike v then hScanPush (v :: stack) rest else hScanPush stack rest

/-- The `while (stack.length)` loop over the heap, one fuel per iteration;
`none` when the loop is still running after `fuel` iterations. -/
def hExtractLoop (h : HHeap) : Nat → List HVal → Option (Option String)
  | 0, _ => none
  | _ + 1, [] => some none
  | fuel + 1, current :: rest =>
    match current with
    | .ref a =>
      match hScanFound (h a) with
      | some code => some (some code)
      | none => hExtractLoop h fuel (hScanPush rest (h a))
    | _ => hExtractLoop h fuel rest

/-- The direct candidate fields, heap version. -/
def hDirectCandidates (h : HHeap) (order : HVal) : List (Option HVal) :=
  [hGet h order "certificateCode",
   hGet h order "certificate_code",
   hGet h order "certificate",
   hGet h order "giftCertificateCode",
   hGet h order "gift_certificate_code",
   hGet h order "giftCertificate",
   (hGet h order "certificate").bind (hGet h · "code"),
   (hGet h order "giftCertificate").bind (hGet h · "code")]

/-- `extractCertificateCode(order)` over the reference heap with fuel for the
fallback loop: `some r` is a completed run returning `r`, `none` a run still
inside the loop after `fuel` iterations. -/
def hExtractCertificateCode (h : HHeap) (order : HVal) (fuel : Nat) : Option (Option String) :=
  match (hDirectCandidates h order).findSome? (fun c =>
      match c with
      | some (.str s) => if certShape s then some (jsTrim s) else none
      | _ => none) with
  | some code => some (some code)
  | none => hExtractLoop h fuel [order]

/-- A self-referencing order: one object whose only field points back to the
object itself — `const o = {}; o.self = o;`. -/
def cyclicHeap : HHeap := fun _ => [("self", HVal.ref 0)]

/-! ### Wallet member resolution (`findPassKitMemberByExternalId`) -/

/-- The `{id, emailAddress, externalId}` reference produced by `toMemberRef`
(src/lib/helpers.js:348-357). `emailAddress` and `externalId` hold the raw
truthy value, `none` standing for the `null` of the source. -/
structure MemberRef where
  id : String
  emailAddress : Option Js
  externalId : Option Js
deriving Repr

/-- The source `toMemberRef(candidate)` (lines 348-357): reject falsy and
non-object candidates, take `candidate.id || candidate.memberId`, reject a
falsy id, stringify it and collect email and external id. -/
def toMemberRef (candidate : Option Js) : Option MemberRef :=
  match candidate with
  | some c =>
    if isObjLike c then
      match firstTruthyJs [jsGet c "id", jsGet c "memberId"] with
      | some idv =>
        some ⟨jsToString idv,
              firstTruthyJs [(jsGet c "person").bind (jsGet · "emailAddress"),
                             jsGet c "emailAddress"],
              firstTruthyJs [jsGet c "externalId"]⟩
      | none => none
    else none
  | none => none

/-- Array test `Array.isArray`. -/
def jsAsArray : Option Js → Option (List Js)
  | some (.arr xs) => some xs
  | _ => none

/-- The per-list step of the `listCandidates` loop (lines 390-398): skip an
empty list; a string first element becomes an id; otherwise `toMemberRef` on
the first element, skipping to the next list when it fails. -/
def refFromRows (rows : List Js) : Option MemberRef :=
  match rows with
  | [] => none
  | first :: _ =>
    match first with
    | .str s => some ⟨s, none, none⟩
    | _ => toMemberRef (some first)

/-- The source `parseMemberRefFromPayload(data)` (lines 359-401): bare member
object, members nested under wrapper keys, a `memberIds` list, or lists of
member-like rows. -/
def parseMemberRefFromPayload (data : Js) : Option MemberRef :=
  if jsTruthy data then
    match toMemberRef (some data) with
    | some direct => some direct
    | none =>
      let nestedCandidates : List Js :=
        ([jsGet data "member", jsGet data "item", jsGet data "result",
          (match jsGet data "data" with
           | some d => if jsTruthy d && !(jsAsArray (some d)).isSome then some d else none
           | none => none)]).filterMap
          (fun o =>
            match o with
            | some v => if jsTruthy v then some v else none
            | none => none)
      match nestedCandidates.findSome? (fun nested => toMemberRef (some nested)) with
      | some nestedRef => some nestedRef
      | none =>
        match jsAsArray (jsGet data "memberIds") with
        | some (idv :: _) => some ⟨jsToString idv, none, none⟩
        | _ =>
          let listCandidates : List (List Js) :=
            ([jsAsArray (some data), jsAsArray (jsGet data "members"),
              jsAsArray (jsGet data "results"), jsAsArray (jsGet data "items"),
              jsAsArray (jsGet data "data")]).filterMap id
          listCandidates.findSome? refFromRows
  else none

/-! ### Effectful model

The network and the Redis store are external; their responses are supplied by
an `Env` of oracles (each `Except.error` models the corresponding request
throwing, carrying the error detail the source would log or rethrow). The
certificate→order mapping keyspace is a `Store` threaded through each run,
and every externally visible action is recorded as an `Eff` in a trace.
Writes to the activity-log sink are recorded as `logEntry` events (their
optional Redis persistence is best-effort and swallowed by the source). -/

/-- The Redis keyspace holding certificate→order mappings. -/
abbrev Store := List (String × String)

def storeLookup (st : Store) (k : String) : Option String :=
  (st.find? (fun p => p.1 == k)).map (·.2)

def storePut (st : Store) (k v : String) : Store :=
  (k, v) :: st.filter (fun p => p.1 != k)

def storeDrop (st : Store) (k : String) : Store :=
  st.filter (fun p => p.1 != k)

/-- `CERT_TO_ORDER_KEY_PREFIX` (src/lib/helpers.js:77). -/
def certKeyPrefix : String := "acuity_cert_to_order:"

/-- The wallet-member upsert body (`PUT /members/member`): the enrollment
record of lines 666-686 and the cancellation record of lines 473-482, by
their fields. `none` is an absent field. The `signupDate`/`cancelledAt`
timestamps are wall-clock values and are not modelled. -/
structure MemberPayload where
  id : Option String
  programId : Option String
  tierId : Option String
  externalId : String
  status : Option String
  personForename : Option Js
  personSurname : Option Js
  personEmail : Option Js
  personDisplayName : Option String
  personMobile : Option Js
  metaAcuityOrderId : Option String
  metaCertificateCode : Option String
  metaMembershipType : Option Js
  metaCancellationReason : Option String
  metaSourceAction : Option String
deriving Repr

/-- Externally visible actions, in the order a run performs them. -/
inductive Eff where
  | fetchOrder (orderId : String)
  | walletDirectLookup (programId externalId : String)
  | walletListLookup (programId filterField filterValue : String)
  | walletPut (payload : MemberPayload)
  | walletDelete (memberId : String)
  | storeSet (key value : String)
  | storeDel (key : String)
  | logEntry (level message : String)

/-- Oracles for the external collaborators plus the configuration the
functions read from `getConfig()`. An `Except.error` response models the
request throwing. `redisAvailable` is whether `getRedis()` yields a client. -/
structure Env where
  programId : Option String
  productFilter : String
  redisAvailable : Bool
  fetchOrder : String → Except String Js
  directLookup : String → Except String Js
  listMembers : String → String → Except String Js
  putMember : MemberPayload → Except String Js
  deleteMember : String → Except String Js

/-- The `context` argument of the cancellation path: `orderId`,
`sourceAction`, `reason` (all optional). -/
structure Ctx where
  orderId : Option String
  sourceAction : Option String
  reason : Option String
deriving Repr

/-- JavaScript `o || d` for an optional string field: falsy (absent or
empty) falls back to the default. -/
def strTruthyOr (o : Option String) (d : String) : String :=
  match o with
  | some s => if s == "" then d else s
  | none => d

/-- A spread guarded by truthiness: `...(x ? { k: x } : {})`. -/
def presentStr (o : Option String) : Option String :=
  match o with
  | some s => if s == "" then none else some s
  | none => none

/-- The result of one wallet-resolution attempt: the request's outcome fed
through the tolerant payload parser; a thrown request or an unusable payload
both fail to produce a reference. -/
def attemptResult (r : Except String Js) : Option MemberRef :=
  match r with
  | Except.error _ => none
  | Except.ok payload => parseMemberRefFromPayload payload

/-- The source `findPassKitMemberByExternalId(externalId)`
(src/lib/helpers.js:342-453): fatal error without a program id; then the
direct external-id lookup, the `memberId` filter search and the `externalId`
filter search, each request throw caught and the next attempt tried; `none`
when all three produce no usable reference. Every issued request is traced
whether it throws or not. -/
def findPassKitMemberByExternalId (env : Env) (externalId : String) (st : Store) :
    Except String (Option MemberRef) × Store × List Eff :=
  match env.programId with
  | none => (Except.error "Missing PASSKIT_PROGRAM_ID for PassKit member lookup", st, [])
  | some pid =>
    let dl := Eff.walletDirectLookup pid externalId
    let l1 := Eff.walletListLookup pid "memberId" externalId
    let l2 := Eff.walletListLookup pid "externalId" externalId
    match attemptResult (env.directLookup externalId) with
    | some ref => (Except.ok (some ref), st, [dl])
    | none =>
      match attemptResult (env.listMembers "memberId" externalId) with
      | some ref => (Except.ok (some ref), st, [dl, l1])
      | none =>
        match attemptResult (env.listMembers "externalId" externalId) with
        | some ref => (Except.ok (some ref), st, [dl, l1, l2])
        | none => (Except.ok none, st, [dl, l1, l2])

/-- Result record of `deactivatePassKitMembershipByExternalId`:
`{ success, method, passKitId }` (`passKitId = none` is the `null` of the
member-not-found outcome). -/
structure DeactivationResult where
  success : Bool
  method : String
  passKitId : Option Js
deriving Repr

/-- `response.data?.id || member.id` (lines 489 and 502). -/
def respIdOr (resp : Js) (memberId : String) : Js :=
  (firstTruthyJs [jsGet resp "id"]).getD (.str memberId)

/-- The cancellation upsert body of lines 473-482, including the
`cancellationMeta` of lines 461-466 and the conditional `person` block. -/
def cancellationPayload (pid externalId : String) (ctx : Ctx) (m : MemberRef) : MemberPayload :=
  ⟨some m.id, some pid, none, externalId, some "CANCELLED",
   none, none, m.emailAddress, none, none,
   presentStr ctx.orderId, none, none,
   some (strTruthyOr ctx.reason "Membership cancelled"),
   presentStr ctx.sourceAction⟩

/-- The source `deactivatePassKitMembershipByExternalId(externalId, context)`
(src/lib/helpers.js:455-505): fatal error without a program id; resolve the
member; no member (or falsy id) is success with method `member_not_found`;
otherwise upsert a CANCELLED status, and when that upsert throws, log a
warning and fall back to deleting the member by id. -/
def deactivatePassKitMembershipByExternalId (env : Env) (externalId : String) (ctx : Ctx)
    (st : Store) : Except String DeactivationResult × Store × List Eff :=
  match env.programId with
  | none => (Except.error "Missing PASSKIT_PROGRAM_ID for PassKit cancellation", st, [])
  | some pid =>
    match findPassKitMemberByExternalId env externalId st with
    | (Except.error e, st1, tr1) => (Except.error e, st1, tr1)
    | (Except.ok mem, st1, tr1) =>
      match mem with
      | none => (Except.ok ⟨true, "member_not_found", none⟩, st1, tr1)
      | some m =>
        if m.id == "" then (Except.ok ⟨true, "member_not_found", none⟩, st1, tr1)
        else
          let payload := cancellationPayload pid externalId ctx m
          match env.putMember payload with
          | Except.ok resp =>
            (Except.ok ⟨true, "status_update", some (respIdOr resp m.id)⟩, st1,
             tr1 ++ [Eff.walletPut payload])
          | Except.error _ =>
            let warnEff := Eff.logEntry "warn"
              "PassKit status update to CANCELLED failed, trying delete fallback"
            match env.deleteMember m.id with
            | Except.ok resp2 =>
              (Except.ok ⟨true, "delete", some (respIdOr resp2 m.id)⟩, st1,
               tr1 ++ [Eff.walletPut payload, warnEff, Eff.walletDelete m.id])
            | Except.error e2 =>
              (Except.error e2, st1,
               tr1 ++ [Eff.walletPut payload, warnEff, Eff.walletDelete m.id])

/-- The source `storeCertificateOrderMapping(certificateCode, orderId)`
(src/lib/helpers.js:257-271): no-op without Redis or for an invalid
normalized code, otherwise a keyed set with the 90-day expiry (expiry not
modelled). Backing-store failures are swallowed by the source. -/
def storeCertificateOrderMapping (env : Env) (certificateCode orderId : String) (st : Store) :
    Store × List Eff :=
  if env.redisAvailable then
    let code := normalizeCertificateCode certificateCode
    if strIsCertificateCode code then
      (storePut st (certKeyPrefix ++ code) orderId, [Eff.storeSet (certKeyPrefix ++ code) orderId])
    else (st, [])
  else (st, [])

/-- The source `removeCertificateOrderMapping(certificateCode)`
(src/lib/helpers.js:288-299): best-effort keyed delete, no-op without Redis
or for an invalid normalized code. -/
def removeCertificateOrderMapping (env : Env) (certificateCode : String) (st : Store) :
    Store × List Eff :=
  if env.redisAvailable then
    let code := normalizeCertificateCode certificateCode
    if strIsCertificateCode code then
      (storeDrop st (certKeyPrefix ++ code), [Eff.storeDel (certKeyPrefix ++ code)])
    else (st, [])
  else (st, [])

/-- Result record of `cancelMembershipByCertificateCode`: `{ success,
externalId, method, passKitId }` (the deactivation result spread over
`{ success: true, externalId: code }`). -/
structure CancelResult where
  success : Bool
  externalId : String
  method : String
  passKitId : Option Js
deriving Repr

/-- The source `cancelMembershipByCertificateCode(certificateCode, context)`
(src/lib/helpers.js:507-528): validate and normalize the code (throw when
invalid, before any request), deactivate the wallet membership, remove the
certificate→order mapping, log, and return the deactivation outcome wrapped
with the normalized code. -/
def cancelMembershipByCertificateCode (env : Env) (certificateCode : String) (ctx : Ctx)
    (st : Store) : Except String CancelResult × Store × List Eff :=
  let code := normalizeCertificateCode certificateCode
  if strIsCertificateCode code then
    match deactivatePassKitMembershipByExternalId env code ctx st with
    | (Except.error e, st1, tr1) => (Except.error e, st1, tr1)
    | (Except.ok d, st1, tr1) =>
      let (st2, tr2) := removeCertificateOrderMapping env code st1
      (Except.ok ⟨true, code, d.method, d.passKitId⟩, st2,
       tr1 ++ tr2 ++ [Eff.logEntry "info" "Membership cancellation processed"])
  else (Except.error "Invalid certificate code (expected 8 alphanumeric characters)", st, [])

/-- JavaScript `order[k] || ''`: the field when truthy, else the empty
string. -/
def jsOrEmptyStr (o : Js) (k : String) : Js :=
  (firstTruthyJs [jsGet o k]).getD (.str "")

/-- Split a character list at every occurrence of a separator character
(JavaScript `String.prototype.split` with a one-character separator). -/
def listSplitOnChar (sep : Char) : List Char → List (List Char)
  | [] => [[]]
  | c :: rest =>
    let r := listSplitOnChar sep rest
    if c == sep then [] :: r
    else
      match r with
      | [] => [[c]]
      | h :: t => (c :: h) :: t

/-- JavaScript `s.split(',')`. -/
def jsSplitComma (s : String) : List String :=
  (listSplitOnChar ',' s.data).map (fun l => ⟨l⟩)

/-- The configured filter list of lines 620-622:
`MEMBERSHIP_PRODUCT_FILTER.split(',').map(p => p.trim().toLowerCase())`,
empty when the variable is unset or empty. -/
def parseFilter (filter : String) : List String :=
  if filter == "" then []
  else (jsSplitComma filter).map (fun p => jsToLowerStr (jsTrim p))

/-- The product-filter gate of lines 624-634: pass when no filter is
configured or some filter entry is a substring of the lowercased order
title. -/
def productFilterAllows (filter : String) (order : Js) : Bool :=
  let filterProducts := parseFilter filter
  if filterProducts.isEmpty then true
  else
    let orderTitle := jsToLowerStr (jsToString (jsOrEmptyStr order "title"))
    filterProducts.any (fun p => strIncludes orderTitle p)

/-- The display name `` `${order.firstName || ''} ${order.lastName || ''}`.trim() ``. -/
def displayNameOf (order : Js) : String :=
  jsTrim (jsToString (jsOrEmptyStr order "firstName") ++ " " ++
          jsToString (jsOrEmptyStr order "lastName"))

/-- The enrollment upsert body `memberData` of lines 666-686: fixed tier
`membership`, the normalized certificate code as external id, person fields
from the order, the conditional mobile number, and the order metadata. -/
def memberDataOf (pid : Option String) (code orderId : String) (order : Js) : MemberPayload :=
  ⟨none, pid, some "membership", code, none,
   some (jsOrEmptyStr order "firstName"),
   some (jsOrEmptyStr order "lastName"),
   some (jsOrEmptyStr order "email"),
   some (displayNameOf order),
   firstTruthyJs [jsGet order "phone"],
   some orderId, some code, some (jsOrEmptyStr order "title"),
   none, none⟩

/-- Result of `processNewMembershipOrder`: the success record of lines
703-707, or the skip records of line 632 (no cancellation result) and lines
658-662 (wrapping one). -/
inductive ProcessResult where
  | success (passKitId : Js) (member : String)
  | skipped (reason : Option String) (cancellationResult : Option CancelResult)

/-- The source `processNewMembershipOrder(orderId)`
(src/lib/helpers.js:599-713): fetch the order (rethrow fetch failures),
apply the product filter, extract and normalize the certificate code (throw
when missing), divert inactive orders to the cancellation flow wrapped as a
skip, otherwise upsert the member and persist the certificate→order
mapping. -/
def processNewMembershipOrder (env : Env) (orderId : String) (st : Store) :
    Except String ProcessResult × Store × List Eff :=
  let log0 := Eff.logEntry "info" ("Processing order #" ++ orderId ++ "...")
  let fetchEff := Eff.fetchOrder orderId
  match env.fetchOrder orderId with
  | Except.error e =>
    (Except.error e, st,
     [log0, fetchEff,
      Eff.logEntry "error" ("Failed to fetch order #" ++ orderId ++ " from Acuity")])
  | Except.ok order =>
    let pre := [log0, fetchEff,
                Eff.logEntry "info" ("Fetched order #" ++ orderId ++ " from Acuity")]
    if productFilterAllows env.productFilter order then
      match extractCertificateCode order with
      | none =>
        (Except.error "Missing or invalid Acuity certificate code (expected 8 alphanumeric characters)",
         st,
         pre ++ [Eff.logEntry "error"
                   ("Order #" ++ orderId ++ " is missing a valid certificate code")])
      | some extracted =>
        let code := normalizeCertificateCode extracted
        let activity := evaluateOrderActivity order
        if activity.active then
          let memberData := memberDataOf env.programId code orderId order
          let creating := Eff.logEntry "info"
            ("Creating PassKit member for " ++ displayNameOf order ++ "...")
          match env.putMember memberData with
          | Except.ok resp =>
            let (st1, trStore) := storeCertificateOrderMapping env code orderId st
            (Except.ok (ProcessResult.success ((firstTruthyJs [jsGet resp "id"]).getD resp)
                          (displayNameOf order)),
             st1,
             pre ++ [creating, Eff.walletPut memberData] ++ trStore ++
               [Eff.logEntry "info" "Successfully created PassKit member!"])
          | Except.error e =>
            (Except.error e, st,
             pre ++ [creating, Eff.walletPut memberData,
                     Eff.logEntry "error" "Failed to create PassKit member"])
        else
          let warnEff := Eff.logEntry "warn"
            ("Order #" ++ orderId ++ " appears inactive/cancelled. Running cancellation flow.")
          match cancelMembershipByCertificateCode env code
              ⟨some orderId, some "order.reprocess", activity.reason⟩ st with
          | (Except.error e, st1, tr1) => (Except.error e, st1, pre ++ [warnEff] ++ tr1)
          | (Except.ok c, st1, tr1) =>
            (Except.ok (ProcessResult.skipped activity.reason (some c)), st1,
             pre ++ [warnEff] ++ tr1)
    else
      (Except.ok (ProcessResult.skipped (some "Product filter mismatch") none), st,
       pre ++ [Eff.logEntry "info" ("Order #" ++ orderId ++ " doesn't match filter. Skipping.")])

/-! ### Auxiliary notions used by the claim statements -/

/-- What a normalized certificate code must look like: exactly 8 characters,
all uppercase alphanumeric. -/
def isUpperCertCode (s : String) : Bool :=
  s.data.length == 8 && s.data.all isUpperAlnumChar

def effIsWalletPut : Eff → Option MemberPayload
  | .walletPut p => some p
  | _ => none

def effIsWalletDelete : Eff → Option String
  | .walletDelete i => some i
  | _ => none

def effIsStoreSet : Eff → Option (String × String)
  | .storeSet k v => some (k, v)
  | _ => none

def effIsStoreDel : Eff → Option String
  | .storeDel k => some k
  | _ => none

/-- An action visible outside the process beyond the order fetch and the log
sink. -/
def effIsExternalWrite (e : Eff) : Bool :=
  match e with
  | .fetchOrder _ => false
  | .logEntry _ _ => false
  | _ => true

/-- The input fields `evaluateOrderActivity` declares: the four cancellation
flags, the two activity booleans and the four status-like fields. -/
def declaredActivityFields : List String :=
  cancellationFlags ++
    ["active", "isActive", "status", "orderStatus", "subscriptionStatus", "membershipStatus"]

/-! ### Character and string lemmas -/

theorem toNat_charOfNat (n : Nat) (hv : n.isValidChar) : (Char.ofNat n).toNat = n := by
  simp [Char.ofNat, hv, Char.ofNatAux, Char.toNat, UInt32.toNat, BitVec.toNat_ofNatLt]

theorem upChar_alnum (c : Char) (h : isAlnumChar c = true) :
    isUpperAlnumChar (jsUpChar c) = true := by
  simp [isAlnumChar] at h
  by_cases hc : 97 ≤ c.toNat ∧ c.toNat ≤ 122
  · have hv : (c.toNat - 32).isValidChar := Or.inl (by omega)
    simp [jsUpChar, isUpperAlnumChar, hc, toNat_charOfNat _ hv]
    omega
  · simp [jsUpChar, isUpperAlnumChar, hc]
    omega

theorem alnum_not_whitespace (c : Char) (h : isAlnumChar c = true) :
    c.isWhitespace = false := by
  simp [isAlnumChar] at h
  simp [Char.isWhitespace]
  refine ⟨⟨⟨fun he => ?_, fun he => ?_⟩, fun he => ?_⟩, fun he => ?_⟩ <;>
    (subst he; revert h; decide)

theorem dropWhile_not_head (l : List Char) (h : ∀ c ∈ l, Char.isWhitespace c = false) :
    l.dropWhile Char.isWhitespace = l := by
  cases l with
  | nil => rfl
  | cons c rest =>
    have := h c (by simp)
    simp [List.dropWhile, this]

/-- Trimming fixes a string of alphanumeric characters. -/
theorem jsTrim_all_alnum (s : String) (h : s.data.all isAlnumChar = true) :
    jsTrim s = s := by
  have hws : ∀ c ∈ s.data, Char.isWhitespace c = false := by
    intro c hc
    exact alnum_not_whitespace c (by simp [List.all_eq_true] at h; exact h c hc)
  have hws2 : ∀ c ∈ s.data.reverse, Char.isWhitespace c = false := by
    intro c hc
    exact hws c (List.mem_reverse.mp hc)
  cases s with
  | mk data =>
    simp [jsTrim, listTrim, dropWhile_not_head data hws, dropWhile_not_head data.reverse hws2]

theorem certShape_jsTrim (s : String) (h : certShape s = true) :
    certShape (jsTrim s) = true := by
  simp only [certShape] at h ⊢
  have hall : (jsTrim s).data.all isAlnumChar = true := by
    simp only [Bool.and_eq_true] at h
    exact h.2
  rw [jsTrim_all_alnum _ hall]
  exact h

/-- A valid code stays valid under normalization and comes out uppercase. -/
theorem normalize_valid_upper (s : String) (h : strIsCertificateCode s = true) :
    strIsCertificateCode (normalizeCertificateCode s) = true ∧
      isUpperCertCode (normalizeCertificateCode s) = true := by
  simp only [strIsCertificateCode, certShape, Bool.and_eq_true, beq_iff_eq] at h
  obtain ⟨hlen, hall⟩ := h
  simp only [List.all_eq_true] at hall
  have hupper : ∀ c ∈ (jsTrim s).data.map jsUpChar, isUpperAlnumChar c = true := by
    intro c hc
    simp only [List.mem_map] at hc
    obtain ⟨c0, hc0, rfl⟩ := hc
    exact upChar_alnum c0 (hall c0 hc0)
  have hupdata : (jsToUpperStr (jsTrim s)).data = (jsTrim s).data.map jsUpChar := rfl
  have hupall : (jsToUpperStr (jsTrim s)).data.all isAlnumChar = true := by
    rw [hupdata]
    simp only [List.all_eq_true]
    intro c hc
    have := hupper c hc
    simp [isUpperAlnumChar] at this
    simp [isAlnumChar]
    omega
  constructor
  · simp only [strIsCertificateCode, certShape, normalizeCertificateCode, Bool.and_eq_true,
      beq_iff_eq]
    rw [jsTrim_all_alnum _ hupall]
    refine ⟨?_, hupall⟩
    rw [hupdata, List.length_map]
    exact hlen
  · simp only [isUpperCertCode, normalizeCertificateCode, Bool.and_eq_true, beq_iff_eq]
    rw [hupdata]
    constructor
    · rw [List.length_map]; exact hlen
    · simp only [List.all_eq_true]
      exact fun c hc => hupper c hc

/-! ### Validity of extracted certificate codes -/

theorem scanFound_valid (entries : List (String × Js)) (code : String)
    (h : scanFound entries = some code) : strIsCertificateCode code = true := by
  induction entries with
  | nil => simp [scanFound] at h
  | cons e rest ih =>
    obtain ⟨k, v⟩ := e
    match v with
    | .str s =>
      simp only [scanFound] at h
      split at h
      · rename_i hcond
        simp only [Option.some.injEq] at h
        subst h
        simp only [Bool.and_eq_true] at hcond
        exact certShape_jsTrim s hcond.2
      · exact ih h
    | .null | .undef | .bool _ | .num _ | .arr _ | .obj _ =>
      simp only [scanFound] at h
      exact ih h

theorem extractLoop_valid (stack : List Js) (code : String)
    (h : extractLoop stack = some code) : strIsCertificateCode code = true := by
  induction stack using extractLoop.induct with
  | case1 =>
    rw [extractLoop] at h
    exact Option.noConfusion h
  | case2 current rest hobj found hfound =>
    rw [extractLoop] at h
    simp only [hobj, if_true, hfound] at h
    simp only [Option.some.injEq] at h
    subst h
    exact scanFound_valid _ _ hfound
  | case3 current rest hobj hfound ih =>
    rw [extractLoop] at h
    simp only [hobj, if_true, hfound] at h
    exact ih h
  | case4 current rest hobj ih =>
    rw [extractLoop] at h
    simp only [hobj] at h
    exact ih h

theorem extract_valid (order : Js) (code : String)
    (h : extractCertificateCode order = some code) : strIsCertificateCode code = true := by
  simp only [extractCertificateCode] at h
  split at h
  · rename_i s hfind
    simp only [Option.some.injEq] at h
    subst h
    obtain ⟨c, hc, hsome⟩ := List.exists_of_findSome?_eq_some hfind
    match c with
    | some (.str s0) =>
      simp only at hsome
      split at hsome
      · rename_i hshape
        simp only [Option.some.injEq] at hsome
        subst hsome
        exact certShape_jsTrim s0 hshape
      · simp at hsome
    | some (.null) | some (.undef) | some (.bool _) | some (.num _)
    | some (.arr _) | some (.obj _) | none =>
      simp at hsome
  · exact extractLoop_valid _ _ h

/-! ### Mapping-store lemmas -/

theorem storeLookup_storeDrop_self (st : Store) (k : String) :
    storeLookup (storeDrop st k) k = none := by
  induction st with
  | nil => rfl
  | cons p rest ih =>
    obtain ⟨k1, v1⟩ := p
    by_cases hk : (k1 == k) = true
    · simpa [storeDrop, List.filter_cons, bne, hk] using ih
    · have h1 : storeDrop ((k1, v1) :: rest) k = (k1, v1) :: storeDrop rest k := by
        simp [storeDrop, List.filter_cons, bne, hk]
      rw [h1]
      have h2 : storeLookup ((k1, v1) :: storeDrop rest k) k
          = storeLookup (storeDrop rest k) k := by
        simp [storeLookup, List.find?, hk]
      rw [h2]
      exact ih

/-! ### Claim C1 -/

theorem hExtractLoop_cyclic (fuel : Nat) :
    hExtractLoop cyclicHeap fuel [HVal.ref 0] = none := by
  induction fuel with
  | zero => rfl
  | succ n ih => exact ih

/-- C1: the claim says `extractCertificateCode` terminates on every payload,
including cyclically self-referencing ones. On the self-referencing order
`const o = {}; o.self = o;` the fallback `while (stack.length)` loop pops the
object, finds no certificate-shaped string and pushes the object itself back
— the run is still inside the loop after any number of iterations, so the
function never returns. (The loop has no visited set and no depth bound,
which both the claim and spec §4.1 require.) -/
theorem extractCertificateCode_cyclic_never_completes (fuel : Nat) :
    hExtractCertificateCode cyclicHeap (HVal.ref 0) fuel = none :=
  hExtractLoop_cyclic fuel

/-- Concrete instantiation of the divergence theorem at fuel 5. -/
theorem extractCertificateCode_cyclic_never_completes_witness :
    hExtractCertificateCode cyclicHeap (HVal.ref 0) 5 = none :=
  extractCertificateCode_cyclic_never_completes 5

/-! ### Claim C2 -/

/-- C2 counterexample: the claim says a cancellation flag holding the
numeric value 2 makes `evaluateOrderActivity` report inactive. The source
`isTruthyFlag` compares `value === 1`, so `{cancelled: 2}` is classified
active with no reason. -/
theorem evaluateOrderActivity_flag_two_cex :
    evaluateOrderActivity (Js.obj [("cancelled", Js.num 2)]) = ⟨true, none⟩ := rfl

/-- C2 (amended): a numeric cancellation-flag value is truthy exactly when
it equals 1 (not any non-zero value), and an order whose `cancelled` field
holds numeric 1 is classified inactive with a reason naming the flag. -/
theorem isTruthyFlag_numeric_eq_one :
    (∀ n : Int, isTruthyFlag (some (Js.num n)) = decide (n = 1)) ∧
    (∀ order : Js, jsGet order "cancelled" = some (Js.num 1) →
      evaluateOrderActivity order = ⟨false, some "Acuity order flag cancelled=true"⟩) := by
  constructor
  · intro n
    by_cases h : n = 1 <;> simp [isTruthyFlag, h]
  · intro order h
    have hflag : flagHit order = some "cancelled" := by
      simp [flagHit, cancellationFlags, List.find?, h, isTruthyFlag]
    simp [evaluateOrderActivity, hflag]

/-- Concrete instantiation: the numeric flag value 2 is not truthy, -1 is
not truthy, and `{cancelled: 1}` is classified inactive naming the flag. -/
theorem isTruthyFlag_numeric_eq_one_witness :
    isTruthyFlag (some (Js.num 2)) = false ∧
    isTruthyFlag (some (Js.num (-1))) = false ∧
    evaluateOrderActivity (Js.obj [("cancelled", Js.num 1)]) =
      ⟨false, some "Acuity order flag cancelled=true"⟩ := by
  refine ⟨?_, ?_, isTruthyFlag_numeric_eq_one.2 (Js.obj [("cancelled", Js.num 1)]) rfl⟩
  · rw [isTruthyFlag_numeric_eq_one.1 2]
    decide
  · rw [isTruthyFlag_numeric_eq_one.1 (-1)]
    decide

/-! ### Claim C8 -/

/-- C8: `evaluateOrderActivity` yields inactive with a reason containing the
literal "Cancelled" on `{status: "Cancelled"}`, yields active on `{}`, and
depends only on its declared input fields (orders agreeing on those ten
fields are classified identically). -/
theorem evaluateOrderActivity_rules :
    evaluateOrderActivity (Js.obj [("status", Js.str "Cancelled")]) =
      ⟨false, some "Acuity status indicates inactive: Cancelled"⟩ ∧
    evaluateOrderActivity (Js.obj []) = ⟨true, none⟩ ∧
    (∀ o1 o2 : Js, (∀ k ∈ declaredActivityFields, jsGet o1 k = jsGet o2 k) →
      evaluateOrderActivity o1 = evaluateOrderActivity o2) := by
  refine ⟨rfl, rfl, ?_⟩
  intro o1 o2 h
  have h1 := h "cancelled" (by simp [declaredActivityFields, cancellationFlags])
  have h2 := h "canceled" (by simp [declaredActivityFields, cancellationFlags])
  have h3 := h "isCancelled" (by simp [declaredActivityFields, cancellationFlags])
  have h4 := h "isCanceled" (by simp [declaredActivityFields, cancellationFlags])
  have h5 := h "active" (by simp [declaredActivityFields, cancellationFlags])
  have h6 := h "isActive" (by simp [declaredActivityFields, cancellationFlags])
  have h7 := h "status" (by simp [declaredActivityFields, cancellationFlags])
  have h8 := h "orderStatus" (by simp [declaredActivityFields, cancellationFlags])
  have h9 := h "subscriptionStatus" (by simp [declaredActivityFields, cancellationFlags])
  have h10 := h "membershipStatus" (by simp [declaredActivityFields, cancellationFlags])
  simp only [evaluateOrderActivity, flagHit, statusHit, cancellationFlags, List.find?,
    List.findSome?, h1, h2, h3, h4, h5, h6, h7, h8, h9, h10]

/-- Concrete instantiation of the extensionality part: an order carrying an
extra undeclared field is classified like the order without it. -/
theorem evaluateOrderActivity_rules_witness :
    evaluateOrderActivity (Js.obj [("status", Js.str "Cancelled"), ("email", Js.str "x@y.z")]) =
      evaluateOrderActivity (Js.obj [("status", Js.str "Cancelled")]) :=
  evaluateOrderActivity_rules.2.2
    (Js.obj [("status", Js.str "Cancelled"), ("email", Js.str "x@y.z")])
    (Js.obj [("status", Js.str "Cancelled")])
    (by intro k hk; fin_cases hk <;> rfl)

/-! ### Claim C6 -/

/-- C6: `findPassKitMemberByExternalId` throws without a configured program
id; a throw of the direct external-id lookup does not abort the sequence
(the filter search by `memberId` is still issued); and a run resolves to
null only when all three attempts — direct lookup, `memberId` filter search,
`externalId` filter search — fail to produce a usable member reference, in
which case both filter searches were indeed issued. -/
theorem findMember_fallback_chain :
    (∀ env x st, env.programId = none →
      findPassKitMemberByExternalId env x st =
        (Except.error "Missing PASSKIT_PROGRAM_ID for PassKit member lookup", st, [])) ∧
    (∀ env x st pid e, env.programId = some pid → env.directLookup x = Except.error e →
      Eff.walletListLookup pid "memberId" x ∈ (findPassKitMemberByExternalId env x st).2.2) ∧
    (∀ env x st pid tr, env.programId = some pid →
      findPassKitMemberByExternalId env x st = (Except.ok none, st, tr) →
      attemptResult (env.directLookup x) = none ∧
      attemptResult (env.listMembers "memberId" x) = none ∧
      attemptResult (env.listMembers "externalId" x) = none ∧
      Eff.walletListLookup pid "memberId" x ∈ tr ∧
      Eff.walletListLookup pid "externalId" x ∈ tr) := by
  refine ⟨?_, ?_, ?_⟩
  · intro env x st hpid
    simp [findPassKitMemberByExternalId, hpid]
  · intro env x st pid e hpid hdirect
    have hattempt : attemptResult (env.directLookup x) = none := by
      simp [attemptResult, hdirect]
    cases h2 : attemptResult (env.listMembers "memberId" x) with
    | some ref => simp [findPassKitMemberByExternalId, hpid, hattempt, h2]
    | none =>
      cases h3 : attemptResult (env.listMembers "externalId" x) with
      | some ref => simp [findPassKitMemberByExternalId, hpid, hattempt, h2, h3]
      | none => simp [findPassKitMemberByExternalId, hpid, hattempt, h2, h3]
  · intro env x st pid tr hpid hrun
    cases h1 : attemptResult (env.directLookup x) with
    | some ref => simp [findPassKitMemberByExternalId, hpid, h1] at hrun
    | none =>
      cases h2 : attemptResult (env.listMembers "memberId" x) with
      | some ref => simp [findPassKitMemberByExternalId, hpid, h1, h2] at hrun
      | none =>
        cases h3 : attemptResult (env.listMembers "externalId" x) with
        | some ref => simp [findPassKitMemberByExternalId, hpid, h1, h2, h3] at hrun
        | none =>
          simp [findPassKitMemberByExternalId, hpid, h1, h2, h3] at hrun
          subst hrun
          simp [h1, h2, h3]

/-- A concrete environment whose direct external-id lookup throws and whose
filter searches return an empty payload. -/
def envDirectThrows : Env :=
  ⟨some "prog1", "", true,
   fun _ => Except.ok Js.null,
   fun _ => Except.error "direct lookup boom",
   fun _ _ => Except.ok (Js.obj [("members", Js.arr [])]),
   fun _ => Except.ok Js.null,
   fun _ => Except.ok Js.null⟩

/-- Concrete instantiation: with a throwing direct lookup and empty filter
results the resolver still issues both filter searches and returns null. -/
theorem findMember_fallback_chain_witness :
    Eff.walletListLookup "prog1" "memberId" "AB12CD34" ∈
      (findPassKitMemberByExternalId envDirectThrows "AB12CD34" []).2.2 ∧
    attemptResult (envDirectThrows.listMembers "externalId" "AB12CD34") = none := by
  constructor
  · exact findMember_fallback_chain.2.1 envDirectThrows "AB12CD34" [] "prog1"
      "direct lookup boom" rfl rfl
  · exact (findMember_fallback_chain.2.2 envDirectThrows "AB12CD34" [] "prog1"
      [Eff.walletDirectLookup "prog1" "AB12CD34",
       Eff.walletListLookup "prog1" "memberId" "AB12CD34",
       Eff.walletListLookup "prog1" "externalId" "AB12CD34"] rfl rfl).2.2.1

/-! ### Normalization and mapping-store helper lemmas -/

theorem jsToUpperStr_fix_of_upper (s : String) (h : s.data.all isUpperAlnumChar = true) :
    jsToUpperStr s = s := by
  simp only [List.all_eq_true] at h
  have hmap : s.data.map jsUpChar = s.data := by
    rw [List.map_congr_left (g := id) ?_, List.map_id]
    intro c hc
    have := h c hc
    simp only [isUpperAlnumChar, Bool.or_eq_true, Bool.and_eq_true, decide_eq_true_eq] at this
    simp only [jsUpChar, id]
    rw [if_neg]
    omega
  show (⟨s.data.map jsUpChar⟩ : String) = s
  rw [hmap]

theorem upper_imp_alnum (s : String) (h : s.data.all isUpperAlnumChar = true) :
    s.data.all isAlnumChar = true := by
  simp only [List.all_eq_true] at h ⊢
  intro c hc
  have := h c hc
  simp only [isUpperAlnumChar, Bool.or_eq_true, Bool.and_eq_true, decide_eq_true_eq] at this
  simp only [isAlnumChar, Bool.or_eq_true, Bool.and_eq_true, decide_eq_true_eq]
  omega

/-- Normalization fixes an already-normalized (uppercase alphanumeric)
code. -/
theorem normalize_fix_of_upper (s : String) (h : s.data.all isUpperAlnumChar = true) :
    normalizeCertificateCode s = s := by
  simp only [normalizeCertificateCode]
  rw [jsTrim_all_alnum s (upper_imp_alnum s h), jsToUpperStr_fix_of_upper s h]

theorem ws_false_of_toNat_ge (c : Char) (h : 33 ≤ c.toNat) : c.isWhitespace = false := by
  simp only [Char.isWhitespace, Bool.or_eq_false_iff, decide_eq_false_iff_not]
  refine ⟨⟨⟨fun he => ?_, fun he => ?_⟩, fun he => ?_⟩, fun he => ?_⟩ <;>
    (subst he; revert h; decide)

theorem jsUpChar_not_ws (c : Char) (h : c.isWhitespace = false) :
    (jsUpChar c).isWhitespace = false := by
  by_cases hc : 97 ≤ c.toNat ∧ c.toNat ≤ 122
  · have hv : (c.toNat - 32).isValidChar := Or.inl (by omega)
    apply ws_false_of_toNat_ge
    simp [jsUpChar, hc, toNat_charOfNat _ hv]
    omega
  · simpa [jsUpChar, hc] using h

theorem jsUpChar_idem (c : Char) : jsUpChar (jsUpChar c) = jsUpChar c := by
  by_cases hc : 97 ≤ c.toNat ∧ c.toNat ≤ 122
  · have hv : (c.toNat - 32).isValidChar := Or.inl (by omega)
    have hcond : ¬(97 ≤ (Char.ofNat (c.toNat - 32)).toNat ∧
        (Char.ofNat (c.toNat - 32)).toNat ≤ 122) := by
      rw [toNat_charOfNat _ hv]
      omega
    simp [jsUpChar, hc, hcond]
  · simp [jsUpChar, hc]

theorem dropWhile_eq_self_of_prefix (R D : List Char) (hpre : R <+: D)
    (hD : D.dropWhile Char.isWhitespace = D) :
    R.dropWhile Char.isWhitespace = R := by
  cases R with
  | nil => rfl
  | cons c t =>
    obtain ⟨u, hu⟩ := hpre
    rw [List.dropWhile_eq_self_iff] at hD
    have h0 : 0 < D.length := by rw [← hu]; simp
    have hnws := hD h0
    have hget : D.get ⟨0, h0⟩ = c := by
      subst hu
      rfl
    rw [hget] at hnws
    simp [List.dropWhile_cons, hnws]

theorem dropWhile_map_eq_self (l : List Char)
    (hl : l.dropWhile Char.isWhitespace = l) :
    (l.map jsUpChar).dropWhile Char.isWhitespace = l.map jsUpChar := by
  cases l with
  | nil => rfl
  | cons c t =>
    rw [List.dropWhile_eq_self_iff] at hl
    have hc := hl (by simp)
    have hcf : Char.isWhitespace c = false := by
      simpa using hc
    have := jsUpChar_not_ws c hcf
    simp [List.dropWhile_cons, this]

theorem rdropWhile_map_eq_self (l : List Char)
    (hl : List.rdropWhile Char.isWhitespace l = l) :
    List.rdropWhile Char.isWhitespace (l.map jsUpChar) = l.map jsUpChar := by
  have hl2 : l.reverse.dropWhile Char.isWhitespace = l.reverse := by
    have := congrArg List.reverse hl
    simpa [List.rdropWhile] using this
  have hmap := dropWhile_map_eq_self l.reverse hl2
  simp only [List.rdropWhile, ← List.map_reverse]
  rw [hmap, List.map_reverse, List.reverse_reverse]

theorem listTrim_fix_parts (l : List Char) :
    (listTrim l).dropWhile Char.isWhitespace = listTrim l ∧
    List.rdropWhile Char.isWhitespace (listTrim l) = listTrim l := by
  have heq : listTrim l =
      List.rdropWhile Char.isWhitespace (l.dropWhile Char.isWhitespace) := rfl
  constructor
  · rw [heq]
    exact dropWhile_eq_self_of_prefix _ _ (List.rdropWhile_prefix _ _)
      (List.dropWhile_idempotent _ _)
  · rw [heq]
    exact List.rdropWhile_idempotent _ _

theorem listTrim_map_up_fix (l : List Char) :
    listTrim ((listTrim l).map jsUpChar) = (listTrim l).map jsUpChar := by
  obtain ⟨h1, h2⟩ := listTrim_fix_parts l
  have hd := dropWhile_map_eq_self (listTrim l) h1
  have hr := rdropWhile_map_eq_self (listTrim l) h2
  show List.rdropWhile Char.isWhitespace
      (((listTrim l).map jsUpChar).dropWhile Char.isWhitespace) = (listTrim l).map jsUpChar
  rw [hd, hr]

/-- Normalization is idempotent. -/
theorem normalizeCert_idem (s : String) :
    normalizeCertificateCode (normalizeCertificateCode s) = normalizeCertificateCode s := by
  show jsToUpperStr (jsTrim (jsToUpperStr (jsTrim s))) = jsToUpperStr (jsTrim s)
  have h1 : jsTrim (jsToUpperStr (jsTrim s)) = jsToUpperStr (jsTrim s) := by
    show (⟨listTrim ((listTrim s.data).map jsUpChar)⟩ : String) =
      ⟨(listTrim s.data).map jsUpChar⟩
    rw [listTrim_map_up_fix]
  rw [h1]
  show (⟨((listTrim s.data).map jsUpChar).map jsUpChar⟩ : String) =
    ⟨(listTrim s.data).map jsUpChar⟩
  rw [List.map_map]
  congr 1
  exact List.map_congr_left (fun c _ => jsUpChar_idem c)

/-- Membership split for the traces assembled by the cancellation path. -/
theorem mem_three_append (e a b c l : Eff) (X : List Eff)
    (h : e ∈ [a, b, c] ++ X ++ [l]) : e = a ∨ e = b ∨ e = c ∨ e ∈ X ∨ e = l := by
  simp only [List.mem_append, List.mem_cons, List.mem_singleton, List.not_mem_nil,
    or_false] at h
  tauto

theorem remove_trace_storeDel (env : Env) (c : String) (st : Store) :
    ∀ e ∈ (removeCertificateOrderMapping env c st).2, ∃ k, e = Eff.storeDel k := by
  intro e he
  by_cases hr : env.redisAvailable = true
  · by_cases hv : strIsCertificateCode (normalizeCertificateCode c) = true
    · simp only [removeCertificateOrderMapping, hr, hv, if_true] at he
      simp only [List.mem_singleton] at he
      exact ⟨_, he⟩
    · simp [removeCertificateOrderMapping, hr, hv] at he
  · simp [removeCertificateOrderMapping, hr] at he

theorem storeMapping_trace (env : Env) (c oid : String) (st : Store) :
    ∀ e ∈ (storeCertificateOrderMapping env c oid st).2,
      e = Eff.storeSet (certKeyPrefix ++ normalizeCertificateCode c) oid ∧
        strIsCertificateCode (normalizeCertificateCode c) = true := by
  intro e he
  by_cases hr : env.redisAvailable = true
  · by_cases hv : strIsCertificateCode (normalizeCertificateCode c) = true
    · simp only [storeCertificateOrderMapping, hr, hv, if_true] at he
      simp only [List.mem_singleton] at he
      exact ⟨he, hv⟩
    · simp [storeCertificateOrderMapping, hr, hv] at he
  · simp [storeCertificateOrderMapping, hr] at he

/-- Shared core for C3 and C10: every successful cancellation run leaves no
mapping entry for the normalized code and traced its keyed delete (when
Redis is available). -/
theorem cancel_ok_mapping_core (env : Env) (raw : String) (ctx : Ctx) (st st2 : Store)
    (r : CancelResult) (tr : List Eff)
    (hredis : env.redisAvailable = true)
    (hrun : cancelMembershipByCertificateCode env raw ctx st = (Except.ok r, st2, tr)) :
    storeLookup st2 (certKeyPrefix ++ normalizeCertificateCode raw) = none ∧
    Eff.storeDel (certKeyPrefix ++ normalizeCertificateCode raw) ∈ tr := by
  by_cases hv : strIsCertificateCode (normalizeCertificateCode raw) = true
  · rcases hd : deactivatePassKitMembershipByExternalId env (normalizeCertificateCode raw) ctx st
      with ⟨res, st1, tr1⟩
    cases res with
    | error e =>
      simp [cancelMembershipByCertificateCode, hv, hd] at hrun
    | ok d =>
      have hrem : removeCertificateOrderMapping env (normalizeCertificateCode raw) st1 =
          (storeDrop st1 (certKeyPrefix ++ normalizeCertificateCode raw),
           [Eff.storeDel (certKeyPrefix ++ normalizeCertificateCode raw)]) := by
        simp [removeCertificateOrderMapping, hredis, normalizeCert_idem raw, hv]
      simp only [cancelMembershipByCertificateCode, hv, if_true, hd, hrem,
        Prod.mk.injEq] at hrun
      obtain ⟨-, hst2, htr⟩ := hrun
      subst hst2
      subst htr
      refine ⟨storeLookup_storeDrop_self _ _, ?_⟩
      simp
  · simp [cancelMembershipByCertificateCode, hv] at hrun

/-- The resolver leaves the mapping store untouched and emits only lookup
requests. -/
theorem find_effects (env : Env) (x : String) (st : Store) :
    (findPassKitMemberByExternalId env x st).2.1 = st ∧
    ∀ e ∈ (findPassKitMemberByExternalId env x st).2.2,
      effIsWalletPut e = none ∧ effIsWalletDelete e = none ∧
      effIsStoreSet e = none ∧ effIsStoreDel e = none := by
  cases hp : env.programId with
  | none => simp [findPassKitMemberByExternalId, hp]
  | some pid =>
    cases h1 : attemptResult (env.directLookup x) with
    | some ref =>
      refine ⟨by simp [findPassKitMemberByExternalId, hp, h1], ?_⟩
      intro e he
      simp [findPassKitMemberByExternalId, hp, h1] at he
      subst he
      simp [effIsWalletPut, effIsWalletDelete, effIsStoreSet, effIsStoreDel]
    | none =>
      cases h2 : attemptResult (env.listMembers "memberId" x) with
      | some ref =>
        refine ⟨by simp [findPassKitMemberByExternalId, hp, h1, h2], ?_⟩
        intro e he
        simp [findPassKitMemberByExternalId, hp, h1, h2, List.mem_cons] at he
        rcases he with rfl | rfl <;>
          simp [effIsWalletPut, effIsWalletDelete, effIsStoreSet, effIsStoreDel]
      | none =>
        cases h3 : attemptResult (env.listMembers "externalId" x) with
        | some ref =>
          refine ⟨by simp [findPassKitMemberByExternalId, hp, h1, h2, h3], ?_⟩
          intro e he
          simp [findPassKitMemberByExternalId, hp, h1, h2, h3, List.mem_cons] at he
          rcases he with rfl | rfl | rfl <;>
            simp [effIsWalletPut, effIsWalletDelete, effIsStoreSet, effIsStoreDel]
        | none =>
          refine ⟨by simp [findPassKitMemberByExternalId, hp, h1, h2, h3], ?_⟩
          intro e he
          simp [findPassKitMemberByExternalId, hp, h1, h2, h3, List.mem_cons] at he
          rcases he with rfl | rfl | rfl <;>
            simp [effIsWalletPut, effIsWalletDelete, effIsStoreSet, effIsStoreDel]

/-- The deactivation step leaves the mapping store untouched, and every
wallet upsert it issues carries the CANCELLED status for the given external
id (and no tier). -/
theorem deactivate_effects (env : Env) (x : String) (ctx : Ctx) (st : Store) :
    (deactivatePassKitMembershipByExternalId env x ctx st).2.1 = st ∧
    ∀ e ∈ (deactivatePassKitMembershipByExternalId env x ctx st).2.2,
      (∀ p, effIsWalletPut e = some p →
        p.tierId = none ∧ p.status = some "CANCELLED" ∧ p.externalId = x) ∧
      effIsStoreSet e = none ∧ effIsStoreDel e = none := by
  cases hp : env.programId with
  | none => simp [deactivatePassKitMembershipByExternalId, hp]
  | some pid =>
    rcases hf : findPassKitMemberByExternalId env x st with ⟨fres, fst, ftr⟩
    have hfe := find_effects env x st
    rw [hf] at hfe
    obtain ⟨hfst, hftr⟩ := hfe
    simp only at hfst hftr
    subst hfst
    have hfromfind : ∀ e ∈ ftr,
        (∀ p, effIsWalletPut e = some p →
          p.tierId = none ∧ p.status = some "CANCELLED" ∧ p.externalId = x) ∧
        effIsStoreSet e = none ∧ effIsStoreDel e = none := by
      intro e he
      obtain ⟨hput, hdel, hset, hsdel⟩ := hftr e he
      exact ⟨fun p hp2 => absurd (hput ▸ hp2) (by simp), hset, hsdel⟩
    cases fres with
    | error e0 =>
      simp only [deactivatePassKitMembershipByExternalId, hp, hf]
      exact ⟨by trivial, hfromfind⟩
    | ok mem =>
      match mem with
      | none =>
        simp only [deactivatePassKitMembershipByExternalId, hp, hf]
        exact ⟨by trivial, hfromfind⟩
      | some m =>
        by_cases hid : (m.id == "") = true
        · simp only [deactivatePassKitMembershipByExternalId, hp, hf, hid, if_true]
          exact ⟨by trivial, hfromfind⟩
        · have hpayload : ∀ p, (cancellationPayload pid x ctx m) = p →
              p.tierId = none ∧ p.status = some "CANCELLED" ∧ p.externalId = x := by
            intro p hpp
            subst hpp
            exact ⟨rfl, rfl, rfl⟩
          cases hput : env.putMember (cancellationPayload pid x ctx m) with
          | ok resp =>
            simp only [deactivatePassKitMembershipByExternalId, hp, hf, hid,
              Bool.false_eq_true, if_false, hput]
            refine ⟨by trivial, ?_⟩
            intro e he
            rcases List.mem_append.mp he with he1 | he1
            · exact hfromfind e he1
            · simp only [List.mem_singleton] at he1
              subst he1
              refine ⟨fun p hp2 => ?_, rfl, rfl⟩
              simp only [effIsWalletPut, Option.some.injEq] at hp2
              exact hpayload p hp2
          | error e0 =>
            cases hdel : env.deleteMember m.id with
            | ok resp2 =>
              simp only [deactivatePassKitMembershipByExternalId, hp, hf, hid,
                Bool.false_eq_true, if_false, hput, hdel]
              refine ⟨by trivial, ?_⟩
              intro e he
              rcases List.mem_append.mp he with he1 | he1
              · exact hfromfind e he1
              · simp only [List.mem_cons, List.mem_singleton, List.not_mem_nil,
                  or_false] at he1
                rcases he1 with rfl | rfl | rfl
                · refine ⟨fun p hp2 => ?_, rfl, rfl⟩
                  simp only [effIsWalletPut, Option.some.injEq] at hp2
                  exact hpayload p hp2
                · simp [effIsWalletPut, effIsStoreSet, effIsStoreDel]
                · simp [effIsWalletPut, effIsStoreSet, effIsStoreDel]
            | error e2 =>
              simp only [deactivatePassKitMembershipByExternalId, hp, hf, hid,
                Bool.false_eq_true, if_false, hput, hdel]
              refine ⟨by trivial, ?_⟩
              intro e he
              rcases List.mem_append.mp he with he1 | he1
              · exact hfromfind e he1
              · simp only [List.mem_cons, List.mem_singleton, List.not_mem_nil,
                  or_false] at he1
                rcases he1 with rfl | rfl | rfl
                · refine ⟨fun p hp2 => ?_, rfl, rfl⟩
                  simp only [effIsWalletPut, Option.some.injEq] at hp2
                  exact hpayload p hp2
                · simp [effIsWalletPut, effIsStoreSet, effIsStoreDel]
                · simp [effIsWalletPut, effIsStoreSet, effIsStoreDel]

/-- Every wallet upsert issued by a cancellation run is a CANCELLED-status
upsert for the run's normalized (and validated) code, and the run never
writes a mapping entry. -/
theorem cancel_effects (env : Env) (raw : String) (ctx : Ctx) (st : Store) :
    ∀ e ∈ (cancelMembershipByCertificateCode env raw ctx st).2.2,
      (∀ p, effIsWalletPut e = some p →
        p.tierId = none ∧ p.status = some "CANCELLED" ∧
        p.externalId = normalizeCertificateCode raw ∧
        strIsCertificateCode (normalizeCertificateCode raw) = true) ∧
      effIsStoreSet e = none := by
  by_cases hv : strIsCertificateCode (normalizeCertificateCode raw) = true
  · rcases hd : deactivatePassKitMembershipByExternalId env (normalizeCertificateCode raw)
      ctx st with ⟨dres, dst, dtr⟩
    have hde := deactivate_effects env (normalizeCertificateCode raw) ctx st
    rw [hd] at hde
    obtain ⟨-, hdtr⟩ := hde
    cases dres with
    | error e0 =>
      intro e he
      simp only [cancelMembershipByCertificateCode, hv, if_true, hd] at he
      obtain ⟨hput, hset, -⟩ := hdtr e he
      exact ⟨fun p hp2 => by
        obtain ⟨a, b, c⟩ := hput p hp2
        exact ⟨a, b, c, hv⟩, hset⟩
    | ok d =>
      intro e he
      rcases hrem : removeCertificateOrderMapping env (normalizeCertificateCode raw) dst
        with ⟨rst, rtr⟩
      simp only [cancelMembershipByCertificateCode, hv, if_true, hd, hrem] at he
      rcases List.mem_append.mp he with he1 | he1
      · rcases List.mem_append.mp he1 with he2 | he2
        · obtain ⟨hput, hset, -⟩ := hdtr e he2
          exact ⟨fun p hp2 => by
            obtain ⟨a, b, c⟩ := hput p hp2
            exact ⟨a, b, c, hv⟩, hset⟩
        · have he3 : e ∈ (removeCertificateOrderMapping env
              (normalizeCertificateCode raw) dst).2 := by rw [hrem]; exact he2
          obtain ⟨k, hk⟩ := remove_trace_storeDel env (normalizeCertificateCode raw) dst e he3
          subst hk
          exact ⟨fun p hp2 => by simp [effIsWalletPut] at hp2, by simp [effIsStoreSet]⟩
      · simp only [List.mem_singleton] at he1
        subst he1
        exact ⟨fun p hp2 => by simp [effIsWalletPut] at hp2, by simp [effIsStoreSet]⟩
  · intro e he
    simp [cancelMembershipByCertificateCode, hv] at he

/-! ### Claim C5 -/

/-- C5: when the member is resolved and the provider rejects the CANCELLED
status upsert, the cancellation does not abort — it logs the fallback
warning, deletes the member by id, and reports success with method
"delete". -/
theorem deactivate_falls_back_to_delete (env : Env) (x : String) (ctx : Ctx) (st : Store)
    (pid : String) (m : MemberRef) (trF : List Eff) (e : String) (resp2 : Js)
    (hpid : env.programId = some pid)
    (hfind : findPassKitMemberByExternalId env x st = (Except.ok (some m), st, trF))
    (hid : (m.id == "") = false)
    (hput : env.putMember (cancellationPayload pid x ctx m) = Except.error e)
    (hdel : env.deleteMember m.id = Except.ok resp2) :
    deactivatePassKitMembershipByExternalId env x ctx st =
      (Except.ok ⟨true, "delete", some (respIdOr resp2 m.id)⟩, st,
       trF ++ [Eff.walletPut (cancellationPayload pid x ctx m),
               Eff.logEntry "warn"
                 "PassKit status update to CANCELLED failed, trying delete fallback",
               Eff.walletDelete m.id]) := by
  simp [deactivatePassKitMembershipByExternalId, hpid, hfind, hid, hput, hdel]

/-- A wallet payload holding one member with id `pk_1`, and an environment
that resolves it but rejects the status update while accepting the delete. -/
def envStatusUpdateRejected : Env :=
  ⟨some "prog1", "", true,
   fun _ => Except.ok Js.null,
   fun _ => Except.ok (Js.obj [("id", Js.str "pk_1")]),
   fun _ _ => Except.error "unused",
   fun _ => Except.error "provider rejected status update",
   fun _ => Except.ok (Js.obj [("id", Js.str "pk_1")])⟩

/-- Concrete instantiation of the delete fallback. -/
theorem deactivate_falls_back_to_delete_witness :
    deactivatePassKitMembershipByExternalId envStatusUpdateRejected "AB12CD34"
        ⟨none, none, none⟩ [] =
      (Except.ok ⟨true, "delete",
         some (respIdOr (Js.obj [("id", Js.str "pk_1")]) "pk_1")⟩, [],
       [Eff.walletDirectLookup "prog1" "AB12CD34"] ++
         [Eff.walletPut (cancellationPayload "prog1" "AB12CD34" ⟨none, none, none⟩
            ⟨"pk_1", none, none⟩),
          Eff.logEntry "warn"
            "PassKit status update to CANCELLED failed, trying delete fallback",
          Eff.walletDelete "pk_1"]) :=
  deactivate_falls_back_to_delete envStatusUpdateRejected "AB12CD34" ⟨none, none, none⟩ []
    "prog1" ⟨"pk_1", none, none⟩ [Eff.walletDirectLookup "prog1" "AB12CD34"]
    "provider rejected status update" (Js.obj [("id", Js.str "pk_1")])
    rfl rfl rfl rfl rfl

/-! ### Claim C4 -/

/-- C4: cancelling a valid certificate code for which the resolver finds no
wallet member succeeds with method "member_not_found", performing no wallet
upsert and no wallet delete — so a second Cancel of an already-removed code
is a successful no-op, never an error. -/
theorem cancel_member_not_found_succeeds (env : Env) (raw : String) (ctx : Ctx) (st : Store)
    (pid : String)
    (hpid : env.programId = some pid)
    (hvalid : strIsCertificateCode (normalizeCertificateCode raw) = true)
    (h1 : attemptResult (env.directLookup (normalizeCertificateCode raw)) = none)
    (h2 : attemptResult (env.listMembers "memberId" (normalizeCertificateCode raw)) = none)
    (h3 : attemptResult (env.listMembers "externalId" (normalizeCertificateCode raw)) = none) :
    ∃ tr, cancelMembershipByCertificateCode env raw ctx st =
        (Except.ok ⟨true, normalizeCertificateCode raw, "member_not_found", none⟩,
         (removeCertificateOrderMapping env (normalizeCertificateCode raw) st).1, tr) ∧
      (∀ p, Eff.walletPut p ∉ tr) ∧ (∀ i, Eff.walletDelete i ∉ tr) := by
  have hfind : findPassKitMemberByExternalId env (normalizeCertificateCode raw) st =
      (Except.ok none, st,
       [Eff.walletDirectLookup pid (normalizeCertificateCode raw),
        Eff.walletListLookup pid "memberId" (normalizeCertificateCode raw),
        Eff.walletListLookup pid "externalId" (normalizeCertificateCode raw)]) := by
    simp [findPassKitMemberByExternalId, hpid, h1, h2, h3]
  have hdeact : deactivatePassKitMembershipByExternalId env (normalizeCertificateCode raw)
      ctx st =
      (Except.ok ⟨true, "member_not_found", none⟩, st,
       [Eff.walletDirectLookup pid (normalizeCertificateCode raw),
        Eff.walletListLookup pid "memberId" (normalizeCertificateCode raw),
        Eff.walletListLookup pid "externalId" (normalizeCertificateCode raw)]) := by
    simp [deactivatePassKitMembershipByExternalId, hpid, hfind]
  refine ⟨[Eff.walletDirectLookup pid (normalizeCertificateCode raw),
           Eff.walletListLookup pid "memberId" (normalizeCertificateCode raw),
           Eff.walletListLookup pid "externalId" (normalizeCertificateCode raw)] ++
            (removeCertificateOrderMapping env (normalizeCertificateCode raw) st).2 ++
            [Eff.logEntry "info" "Membership cancellation processed"], ?_, ?_, ?_⟩
  · rcases hrem : removeCertificateOrderMapping env (normalizeCertificateCode raw) st
      with ⟨st2r, tr2r⟩
    simp only [cancelMembershipByCertificateCode, hvalid, if_true, hdeact, hrem]
  · intro p hp
    rcases mem_three_append _ _ _ _ _ _ hp with h | h | h | h | h
    · exact Eff.noConfusion h
    · exact Eff.noConfusion h
    · exact Eff.noConfusion h
    · rcases remove_trace_storeDel env (normalizeCertificateCode raw) st _ h with ⟨k, hk⟩
      exact Eff.noConfusion hk
    · exact Eff.noConfusion h
  · intro i hi
    rcases mem_three_append _ _ _ _ _ _ hi with h | h | h | h | h
    · exact Eff.noConfusion h
    · exact Eff.noConfusion h
    · exact Eff.noConfusion h
    · rcases remove_trace_storeDel env (normalizeCertificateCode raw) st _ h with ⟨k, hk⟩
      exact Eff.noConfusion hk
    · exact Eff.noConfusion h

/-- An environment where every wallet lookup reports no member. -/
def envNoMember : Env :=
  ⟨some "prog1", "", true,
   fun _ => Except.ok Js.null,
   fun _ => Except.ok Js.null,
   fun _ _ => Except.ok (Js.obj [("members", Js.arr [])]),
   fun _ => Except.ok Js.null,
   fun _ => Except.error "delete boom"⟩

/-- Concrete instantiation: cancelling `AB12CD34` when no wallet member
exists for it succeeds with method "member_not_found". -/
theorem cancel_member_not_found_succeeds_witness :
    ∃ tr, cancelMembershipByCertificateCode envNoMember "AB12CD34" ⟨none, none, none⟩ [] =
        (Except.ok ⟨true, normalizeCertificateCode "AB12CD34", "member_not_found", none⟩,
         (removeCertificateOrderMapping envNoMember
            (normalizeCertificateCode "AB12CD34") []).1, tr) ∧
      (∀ p, Eff.walletPut p ∉ tr) ∧ (∀ i, Eff.walletDelete i ∉ tr) :=
  cancel_member_not_found_succeeds envNoMember "AB12CD34" ⟨none, none, none⟩ [] "prog1"
    rfl (by decide) rfl rfl rfl

/-! ### Claim C3 -/

/-- C3: when the fetched order passes the product filter, carries a valid
certificate code and is classified inactive, `processNewMembershipOrder`
issues no enrollment upsert (every wallet upsert in the run's trace is a
CANCELLED-status upsert, never the tier-`membership` enrollment record): it
invokes the cancellation primitive with the normalized code, returns a
skipped result wrapping the cancellation outcome and the inactivity reason,
and the certificate→order mapping for that code is removed from the store. -/
theorem process_inactive_routes_to_cancel (env : Env) (orderId : String) (st : Store)
    (order : Js) (extracted : String) (c : CancelResult) (st2 : Store) (tr2 : List Eff)
    (hfetch : env.fetchOrder orderId = Except.ok order)
    (hfilter : productFilterAllows env.productFilter order = true)
    (hextract : extractCertificateCode order = some extracted)
    (hinactive : (evaluateOrderActivity order).active = false)
    (hcancel : cancelMembershipByCertificateCode env (normalizeCertificateCode extracted)
        ⟨some orderId, some "order.reprocess", (evaluateOrderActivity order).reason⟩ st =
        (Except.ok c, st2, tr2))
    (hredis : env.redisAvailable = true) :
    processNewMembershipOrder env orderId st =
      (Except.ok (ProcessResult.skipped (evaluateOrderActivity order).reason (some c)), st2,
       [Eff.logEntry "info" ("Processing order #" ++ orderId ++ "..."),
        Eff.fetchOrder orderId,
        Eff.logEntry "info" ("Fetched order #" ++ orderId ++ " from Acuity"),
        Eff.logEntry "warn"
          ("Order #" ++ orderId ++ " appears inactive/cancelled. Running cancellation flow.")]
         ++ tr2) ∧
    (∀ e ∈ (processNewMembershipOrder env orderId st).2.2,
      ∀ p, effIsWalletPut e = some p →
        p.tierId = none ∧ p.status = some "CANCELLED") ∧
    storeLookup st2 (certKeyPrefix ++ normalizeCertificateCode extracted) = none := by
  have heq : processNewMembershipOrder env orderId st =
      (Except.ok (ProcessResult.skipped (evaluateOrderActivity order).reason (some c)), st2,
       [Eff.logEntry "info" ("Processing order #" ++ orderId ++ "..."),
        Eff.fetchOrder orderId,
        Eff.logEntry "info" ("Fetched order #" ++ orderId ++ " from Acuity"),
        Eff.logEntry "warn"
          ("Order #" ++ orderId ++ " appears inactive/cancelled. Running cancellation flow.")]
         ++ tr2) := by
    simp only [processNewMembershipOrder, hfetch, hfilter, if_true, hextract, hinactive,
      Bool.false_eq_true, if_false, hcancel]
    rfl
  refine ⟨heq, ?_, ?_⟩
  · intro e he p hp
    rw [heq] at he
    simp only [List.cons_append, List.nil_append, List.mem_cons] at he
    rcases he with rfl | rfl | rfl | rfl | he
    · exact absurd hp (by simp [effIsWalletPut])
    · exact absurd hp (by simp [effIsWalletPut])
    · exact absurd hp (by simp [effIsWalletPut])
    · exact absurd hp (by simp [effIsWalletPut])
    · have hce := cancel_effects env (normalizeCertificateCode extracted)
        ⟨some orderId, some "order.reprocess", (evaluateOrderActivity order).reason⟩ st
      rw [hcancel] at hce
      obtain ⟨hput, -⟩ := hce e he
      obtain ⟨h1, h2, -⟩ := hput p hp
      exact ⟨h1, h2⟩
  · have := cancel_ok_mapping_core env (normalizeCertificateCode extracted)
      ⟨some orderId, some "order.reprocess", (evaluateOrderActivity order).reason⟩
      st st2 c tr2 hredis hcancel
    rw [normalizeCert_idem] at this
    exact this.1

/-- A cancelled order carrying a direct certificate code. -/
def orderInactiveSample : Js :=
  Js.obj [("certificateCode", Js.str "AB12CD34"), ("status", Js.str "cancelled"),
          ("title", Js.str "UNDEFINED x ONE MEMBERSHIP"), ("firstName", Js.str "Tina"),
          ("lastName", Js.str "Cevizovic"), ("email", Js.str "t@example.com")]

/-- An environment that serves `orderInactiveSample` and holds no wallet
member for its code. -/
def envInactive : Env :=
  ⟨some "prog1", "", true,
   fun _ => Except.ok orderInactiveSample,
   fun _ => Except.ok Js.null,
   fun _ _ => Except.ok Js.null,
   fun _ => Except.ok Js.null,
   fun _ => Except.error "boom"⟩

/-- Concrete instantiation: reprocessing the cancelled sample order skips
enrollment, wraps the member_not_found cancellation outcome, and leaves no
mapping entry for the code. -/
theorem process_inactive_routes_to_cancel_witness :
    (processNewMembershipOrder envInactive "42" []).1 =
      Except.ok (ProcessResult.skipped
        (some "Acuity status indicates inactive: cancelled")
        (some ⟨true, "AB12CD34", "member_not_found", none⟩)) ∧
    storeLookup (processNewMembershipOrder envInactive "42" []).2.1
      (certKeyPrefix ++ "AB12CD34") = none := by
  obtain ⟨heq, -, hmap⟩ := process_inactive_routes_to_cancel envInactive "42" []
    orderInactiveSample "AB12CD34" ⟨true, "AB12CD34", "member_not_found", none⟩ []
    [Eff.walletDirectLookup "prog1" "AB12CD34",
     Eff.walletListLookup "prog1" "memberId" "AB12CD34",
     Eff.walletListLookup "prog1" "externalId" "AB12CD34",
     Eff.storeDel (certKeyPrefix ++ "AB12CD34"),
     Eff.logEntry "info" "Membership cancellation processed"]
    rfl rfl rfl rfl rfl rfl
  rw [heq]
  exact ⟨rfl, hmap⟩

/-! ### Claim C10 -/

/-- C10: every successful `cancelMembershipByCertificateCode` run — whatever
the deactivation method, member_not_found included — removes the
certificate→order mapping entry for the normalized code (given an available
mapping store): the final store resolves the code to nothing, and the keyed
delete was issued. -/
theorem cancel_always_removes_mapping (env : Env) (raw : String) (ctx : Ctx) (st st2 : Store)
    (r : CancelResult) (tr : List Eff)
    (hredis : env.redisAvailable = true)
    (hrun : cancelMembershipByCertificateCode env raw ctx st = (Except.ok r, st2, tr)) :
    storeLookup st2 (certKeyPrefix ++ normalizeCertificateCode raw) = none ∧
    Eff.storeDel (certKeyPrefix ++ normalizeCertificateCode raw) ∈ tr :=
  cancel_ok_mapping_core env raw ctx st st2 r tr hredis hrun

/-- Concrete instantiation: cancelling a code that was mapped but never
enrolled in the wallet (the resolver finds nothing) still deletes the
mapping entry. -/
theorem cancel_always_removes_mapping_witness :
    storeLookup
        (cancelMembershipByCertificateCode envNoMember "ab12cd34" ⟨none, none, none⟩
          [(certKeyPrefix ++ "AB12CD34", "42")]).2.1
        (certKeyPrefix ++ normalizeCertificateCode "ab12cd34") = none ∧
    Eff.storeDel (certKeyPrefix ++ normalizeCertificateCode "ab12cd34") ∈
      (cancelMembershipByCertificateCode envNoMember "ab12cd34" ⟨none, none, none⟩
        [(certKeyPrefix ++ "AB12CD34", "42")]).2.2 :=
  cancel_always_removes_mapping envNoMember "ab12cd34" ⟨none, none, none⟩
    [(certKeyPrefix ++ "AB12CD34", "42")] _ _ _ rfl rfl

/-! ### Claim C9 -/

/-- C9: with the product filter configured as "gold,platinum", an order
titled "Platinum Annual Membership" passes the filter, while processing an
order titled "Trial Class" returns a skipped result with reason "Product
filter mismatch", leaves the mapping store untouched, and performs no
externally visible action beyond the order fetch and logging. -/
theorem product_filter_gate :
    (∀ order : Js, jsGet order "title" = some (Js.str "Platinum Annual Membership") →
      productFilterAllows "gold,platinum" order = true) ∧
    (∀ env orderId st order, env.productFilter = "gold,platinum" →
      env.fetchOrder orderId = Except.ok order →
      jsGet order "title" = some (Js.str "Trial Class") →
      processNewMembershipOrder env orderId st =
        (Except.ok (ProcessResult.skipped (some "Product filter mismatch") none), st,
         [Eff.logEntry "info" ("Processing order #" ++ orderId ++ "..."),
          Eff.fetchOrder orderId,
          Eff.logEntry "info" ("Fetched order #" ++ orderId ++ " from Acuity"),
          Eff.logEntry "info" ("Order #" ++ orderId ++ " doesn't match filter. Skipping.")]) ∧
      ∀ e ∈ (processNewMembershipOrder env orderId st).2.2,
        effIsExternalWrite e = false) := by
  constructor
  · intro order h
    simp only [productFilterAllows, jsOrEmptyStr, h]
    decide
  · intro env orderId st order hcfg hfetch htitle
    have hallow : productFilterAllows env.productFilter order = false := by
      rw [hcfg]
      simp only [productFilterAllows, jsOrEmptyStr, htitle]
      decide
    have heq : processNewMembershipOrder env orderId st =
        (Except.ok (ProcessResult.skipped (some "Product filter mismatch") none), st,
         [Eff.logEntry "info" ("Processing order #" ++ orderId ++ "..."),
          Eff.fetchOrder orderId,
          Eff.logEntry "info" ("Fetched order #" ++ orderId ++ " from Acuity"),
          Eff.logEntry "info" ("Order #" ++ orderId ++ " doesn't match filter. Skipping.")]) := by
      simp only [processNewMembershipOrder, hfetch, hallow, Bool.false_eq_true, if_false]
      rfl
    refine ⟨heq, ?_⟩
    intro e he
    rw [heq] at he
    simp only [List.mem_cons, List.not_mem_nil, or_false] at he
    rcases he with rfl | rfl | rfl | rfl <;> rfl

/-- A "Trial Class" order and an environment with the "gold,platinum"
filter configured. -/
def orderTrialClass : Js :=
  Js.obj [("title", Js.str "Trial Class"), ("certificateCode", Js.str "ZZ99XX11")]

def envGoldPlatinum : Env :=
  ⟨some "prog1", "gold,platinum", true,
   fun _ => Except.ok orderTrialClass,
   fun _ => Except.ok Js.null,
   fun _ _ => Except.ok Js.null,
   fun _ => Except.ok Js.null,
   fun _ => Except.error "boom"⟩

/-! ### Claim C7 -/

theorem jsUpChar_not_lower (c : Char) :
    ¬(97 ≤ (jsUpChar c).toNat ∧ (jsUpChar c).toNat ≤ 122) := by
  by_cases hc : 97 ≤ c.toNat ∧ c.toNat ≤ 122
  · have hv : (c.toNat - 32).isValidChar := Or.inl (by omega)
    rw [jsUpChar, if_pos hc, toNat_charOfNat _ hv]
    omega
  · rw [jsUpChar, if_neg hc]
    exact hc

/-- A normalized code that passes validation is uppercase: its characters
are `toUpperCase` images, which are never lowercase letters. -/
theorem normalized_upper_of_valid (raw : String)
    (hv : strIsCertificateCode (normalizeCertificateCode raw) = true) :
    isUpperCertCode (normalizeCertificateCode raw) = true := by
  have htrim : jsTrim (normalizeCertificateCode raw) = normalizeCertificateCode raw := by
    show (⟨listTrim ((listTrim raw.data).map jsUpChar)⟩ : String) =
      ⟨(listTrim raw.data).map jsUpChar⟩
    rw [listTrim_map_up_fix]
  simp only [strIsCertificateCode, certShape, Bool.and_eq_true, beq_iff_eq] at hv
  rw [htrim] at hv
  obtain ⟨hlen, hall⟩ := hv
  simp only [isUpperCertCode, Bool.and_eq_true, beq_iff_eq]
  refine ⟨hlen, ?_⟩
  simp only [List.all_eq_true] at hall ⊢
  intro c hc
  have halnum := hall c hc
  have hcm : c ∈ (listTrim raw.data).map jsUpChar := hc
  obtain ⟨c0, -, rfl⟩ := List.mem_map.mp hcm
  have hnl := jsUpChar_not_lower c0
  simp only [isAlnumChar, Bool.or_eq_true, Bool.and_eq_true, decide_eq_true_eq] at halnum
  simp only [isUpperAlnumChar, Bool.or_eq_true, Bool.and_eq_true, decide_eq_true_eq]
  omega

/-- An effect that is neither a wallet upsert nor a mapping-store set
satisfies any constraint on those two effect kinds. -/
theorem no_put_no_set (e : Eff) (Q1 : MemberPayload → Prop) (Q2 : String × String → Prop)
    (h1 : effIsWalletPut e = none) (h2 : effIsStoreSet e = none) :
    (∀ p, effIsWalletPut e = some p → Q1 p) ∧ (∀ kv, effIsStoreSet e = some kv → Q2 kv) :=
  ⟨fun p hp => absurd (h1 ▸ hp) (by simp), fun kv hkv => absurd (h2 ▸ hkv) (by simp)⟩

/-- The constraint C7 places on one effect of an Enroll run. -/
def effCodeOk (e : Eff) : Prop :=
  (∀ p, effIsWalletPut e = some p →
    strIsCertificateCode p.externalId = true ∧ isUpperCertCode p.externalId = true) ∧
  (∀ kv, effIsStoreSet e = some kv →
    ∃ cc, kv.1 = certKeyPrefix ++ cc ∧ strIsCertificateCode cc = true ∧
      isUpperCertCode cc = true)

theorem effCodeOk_of_plain (e : Eff) (h1 : effIsWalletPut e = none)
    (h2 : effIsStoreSet e = none) : effCodeOk e :=
  no_put_no_set e _ _ h1 h2

set_option maxHeartbeats 2000000 in
/-- Shared core for the enrollment/cancellation code-shape invariant: every
wallet upsert and every mapping-store write of a `processNewMembershipOrder`
run uses an external id / key code that is exactly 8 uppercase alphanumeric
characters. -/
theorem process_effects_codes (env : Env) (orderId : String) (st : Store) :
    ∀ e ∈ (processNewMembershipOrder env orderId st).2.2, effCodeOk e := by
  cases hfetch : env.fetchOrder orderId with
  | error e0 =>
    have heq : (processNewMembershipOrder env orderId st).2.2 =
        [Eff.logEntry "info" ("Processing order #" ++ orderId ++ "..."),
         Eff.fetchOrder orderId,
         Eff.logEntry "error" ("Failed to fetch order #" ++ orderId ++ " from Acuity")] := by
      simp only [processNewMembershipOrder, hfetch]
    rw [heq]
    intro e he
    simp only [List.mem_cons, List.not_mem_nil, or_false] at he
    rcases he with rfl | rfl | rfl <;> exact effCodeOk_of_plain _ rfl rfl
  | ok order =>
    by_cases hfil : productFilterAllows env.productFilter order = true
    · cases hex : extractCertificateCode order with
      | none =>
        have heq : (processNewMembershipOrder env orderId st).2.2 =
            [Eff.logEntry "info" ("Processing order #" ++ orderId ++ "..."),
             Eff.fetchOrder orderId,
             Eff.logEntry "info" ("Fetched order #" ++ orderId ++ " from Acuity"),
             Eff.logEntry "error"
               ("Order #" ++ orderId ++ " is missing a valid certificate code")] := by
          simp only [processNewMembershipOrder, hfetch, hfil, if_true, hex]
          rfl
        rw [heq]
        intro e he
        simp only [List.mem_cons, List.not_mem_nil, or_false] at he
        rcases he with rfl | rfl | rfl | rfl <;> exact effCodeOk_of_plain _ rfl rfl
      | some ec =>
        have hecv := extract_valid order ec hex
        have hnv := (normalize_valid_upper ec hecv).1
        have hnu := (normalize_valid_upper ec hecv).2
        by_cases hact : (evaluateOrderActivity order).active = true
        · cases hput : env.putMember
            (memberDataOf env.programId (normalizeCertificateCode ec) orderId order) with
          | ok resp =>
            rcases hsm : storeCertificateOrderMapping env (normalizeCertificateCode ec)
              orderId st with ⟨sst, strr⟩
            have heq : (processNewMembershipOrder env orderId st).2.2 =
                [Eff.logEntry "info" ("Processing order #" ++ orderId ++ "..."),
                 Eff.fetchOrder orderId,
                 Eff.logEntry "info" ("Fetched order #" ++ orderId ++ " from Acuity"),
                 Eff.logEntry "info"
                   ("Creating PassKit member for " ++ displayNameOf order ++ "..."),
                 Eff.walletPut
                   (memberDataOf env.programId (normalizeCertificateCode ec) orderId order)]
                  ++ strr ++
                  [Eff.logEntry "info" "Successfully created PassKit member!"] := by
              simp only [processNewMembershipOrder, hfetch, hfil, if_true, hex, hact,
                hput, hsm]
              rfl
            rw [heq]
            intro e he
            rcases List.mem_append.mp he with he1 | he1
            · rcases List.mem_append.mp he1 with he2 | he2
              · simp only [List.mem_cons, List.not_mem_nil, or_false] at he2
                rcases he2 with rfl | rfl | rfl | rfl | rfl
                · exact effCodeOk_of_plain _ rfl rfl
                · exact effCodeOk_of_plain _ rfl rfl
                · exact effCodeOk_of_plain _ rfl rfl
                · exact effCodeOk_of_plain _ rfl rfl
                · refine ⟨fun p hp => ?_, fun kv hkv => by simp [effIsStoreSet] at hkv⟩
                  simp only [effIsWalletPut, Option.some.injEq] at hp
                  subst hp
                  exact ⟨hnv, hnu⟩
              · have he3 : e ∈ (storeCertificateOrderMapping env
                    (normalizeCertificateCode ec) orderId st).2 := by rw [hsm]; exact he2
                obtain ⟨heqe, hval⟩ := storeMapping_trace env (normalizeCertificateCode ec)
                  orderId st e he3
                subst heqe
                refine ⟨fun p hp => by simp [effIsWalletPut] at hp, fun kv hkv => ?_⟩
                simp only [effIsStoreSet, Option.some.injEq] at hkv
                subst hkv
                exact ⟨normalizeCertificateCode (normalizeCertificateCode ec), rfl, hval,
                  normalized_upper_of_valid (normalizeCertificateCode ec) hval⟩
            · simp only [List.mem_singleton] at he1
              subst he1
              exact effCodeOk_of_plain _ rfl rfl
          | error e0 =>
            have heq : (processNewMembershipOrder env orderId st).2.2 =
                [Eff.logEntry "info" ("Processing order #" ++ orderId ++ "..."),
                 Eff.fetchOrder orderId,
                 Eff.logEntry "info" ("Fetched order #" ++ orderId ++ " from Acuity"),
                 Eff.logEntry "info"
                   ("Creating PassKit member for " ++ displayNameOf order ++ "..."),
                 Eff.walletPut
                   (memberDataOf env.programId (normalizeCertificateCode ec) orderId order),
                 Eff.logEntry "error" "Failed to create PassKit member"] := by
              simp only [processNewMembershipOrder, hfetch, hfil, if_true, hex, hact, hput]
              rfl
            rw [heq]
            intro e he
            simp only [List.mem_cons, List.not_mem_nil, or_false] at he
            rcases he with rfl | rfl | rfl | rfl | rfl | rfl
            · exact effCodeOk_of_plain _ rfl rfl
            · exact effCodeOk_of_plain _ rfl rfl
            · exact effCodeOk_of_plain _ rfl rfl
            · exact effCodeOk_of_plain _ rfl rfl
            · refine ⟨fun p hp => ?_, fun kv hkv => by simp [effIsStoreSet] at hkv⟩
              simp only [effIsWalletPut, Option.some.injEq] at hp
              subst hp
              exact ⟨hnv, hnu⟩
            · exact effCodeOk_of_plain _ rfl rfl
        · have hactf : (evaluateOrderActivity order).active = false :=
            Bool.eq_false_iff.mpr hact
          rcases hc : cancelMembershipByCertificateCode env (normalizeCertificateCode ec)
            ⟨some orderId, some "order.reprocess", (evaluateOrderActivity order).reason⟩ st
            with ⟨cres, cst, ctr⟩
          have hce := cancel_effects env (normalizeCertificateCode ec)
            ⟨some orderId, some "order.reprocess", (evaluateOrderActivity order).reason⟩ st
          rw [hc] at hce
          have hfromcancel : ∀ e ∈ ctr, effCodeOk e := by
            intro e he
            obtain ⟨hput, hset⟩ := hce e he
            refine ⟨fun p hp => ?_, fun kv hkv =>
              absurd (hset ▸ hkv) (by simp)⟩
            obtain ⟨-, -, hext, hval⟩ := hput p hp
            rw [hext]
            exact ⟨hval, normalized_upper_of_valid (normalizeCertificateCode ec) hval⟩
          have heq : (processNewMembershipOrder env orderId st).2.2 =
              [Eff.logEntry "info" ("Processing order #" ++ orderId ++ "..."),
               Eff.fetchOrder orderId,
               Eff.logEntry "info" ("Fetched order #" ++ orderId ++ " from Acuity"),
               Eff.logEntry "warn" ("Order #" ++ orderId ++
                 " appears inactive/cancelled. Running cancellation flow.")] ++ ctr := by
            cases cres with
            | error e1 =>
              simp only [processNewMembershipOrder, hfetch, hfil, if_true, hex, hactf,
                Bool.false_eq_true, if_false, hc]
              rfl
            | ok c1 =>
              simp only [processNewMembershipOrder, hfetch, hfil, if_true, hex, hactf,
                Bool.false_eq_true, if_false, hc]
              rfl
          rw [heq]
          intro e he
          rcases List.mem_append.mp he with he1 | he1
          · simp only [List.mem_cons, List.not_mem_nil, or_false] at he1
            rcases he1 with rfl | rfl | rfl | rfl <;> exact effCodeOk_of_plain _ rfl rfl
          · exact hfromcancel e he1
    · have heq : (processNewMembershipOrder env orderId st).2.2 =
          [Eff.logEntry "info" ("Processing order #" ++ orderId ++ "..."),
           Eff.fetchOrder orderId,
           Eff.logEntry "info" ("Fetched order #" ++ orderId ++ " from Acuity"),
           Eff.logEntry "info"
             ("Order #" ++ orderId ++ " doesn't match filter. Skipping.")] := by
        simp only [processNewMembershipOrder, hfetch, hfil, Bool.false_eq_true, if_false]
        rfl
      rw [heq]
      intro e he
      simp only [List.mem_cons, List.not_mem_nil, or_false] at he
      rcases he with rfl | rfl | rfl | rfl <;> exact effCodeOk_of_plain _ rfl rfl

/-- C7: every certificate code used as a wallet external id (in the
enrollment and cancellation upserts of `processNewMembershipOrder` and
`cancelMembershipByCertificateCode`) or as a mapping-store key is exactly 8
alphanumeric characters normalized to uppercase; an input failing the shape
validation is rejected before any wallet or store call — a thrown error in
Cancel (empty trace), a thrown error before any wallet/store action in
Enroll when no valid code can be extracted, and a silent no-op in the
mapping store. -/
theorem certificate_code_invariant :
    (∀ env orderId st, ∀ e ∈ (processNewMembershipOrder env orderId st).2.2,
      (∀ p, effIsWalletPut e = some p →
        strIsCertificateCode p.externalId = true ∧ isUpperCertCode p.externalId = true) ∧
      (∀ kv, effIsStoreSet e = some kv →
        ∃ cc, kv.1 = certKeyPrefix ++ cc ∧ strIsCertificateCode cc = true ∧
          isUpperCertCode cc = true)) ∧
    (∀ env raw ctx st, ∀ e ∈ (cancelMembershipByCertificateCode env raw ctx st).2.2,
      ∀ p, effIsWalletPut e = some p →
        strIsCertificateCode p.externalId = true ∧ isUpperCertCode p.externalId = true) ∧
    (∀ env raw ctx st, strIsCertificateCode (normalizeCertificateCode raw) = false →
      cancelMembershipByCertificateCode env raw ctx st =
        (Except.error "Invalid certificate code (expected 8 alphanumeric characters)",
         st, [])) ∧
    (∀ env raw oid st, strIsCertificateCode (normalizeCertificateCode raw) = false →
      storeCertificateOrderMapping env raw oid st = (st, [])) ∧
    (∀ env orderId st order, env.fetchOrder orderId = Except.ok order →
      productFilterAllows env.productFilter order = true →
      extractCertificateCode order = none →
      processNewMembershipOrder env orderId st =
        (Except.error
          "Missing or invalid Acuity certificate code (expected 8 alphanumeric characters)",
         st,
         [Eff.logEntry "info" ("Processing order #" ++ orderId ++ "..."),
          Eff.fetchOrder orderId,
          Eff.logEntry "info" ("Fetched order #" ++ orderId ++ " from Acuity"),
          Eff.logEntry "error"
            ("Order #" ++ orderId ++ " is missing a valid certificate code")])) := by
  refine ⟨process_effects_codes, ?_, ?_, ?_, ?_⟩
  · intro env raw ctx st e he p hp
    obtain ⟨hput, -⟩ := cancel_effects env raw ctx st e he
    obtain ⟨-, -, hext, hval⟩ := hput p hp
    rw [hext]
    exact ⟨hval, normalized_upper_of_valid raw hval⟩
  · intro env raw ctx st hv
    simp [cancelMembershipByCertificateCode, hv]
  · intro env raw oid st hv
    by_cases hr : env.redisAvailable = true <;>
      simp [storeCertificateOrderMapping, hr, hv]
  · intro env orderId st order hfetch hfil hex
    simp only [processNewMembershipOrder, hfetch, hfil, if_true, hex]
    rfl

/-- Concrete instantiation: an input failing the 8-alphanumeric validation
is rejected by Cancel with a thrown error and an empty trace, and is a
silent no-op in the mapping store. -/
theorem certificate_code_invariant_witness :
    cancelMembershipByCertificateCode envNoMember "not-a-code" ⟨none, none, none⟩ [] =
      (Except.error "Invalid certificate code (expected 8 alphanumeric characters)",
       [], []) ∧
    storeCertificateOrderMapping envNoMember "not-a-code" "42" [] = ([], []) :=
  ⟨certificate_code_invariant.2.2.1 envNoMember "not-a-code" ⟨none, none, none⟩ []
     (by decide),
   certificate_code_invariant.2.2.2.1 envNoMember "not-a-code" "42" [] (by decide)⟩

/-- Concrete instantiation: the platinum title passes the filter and the
trial-class order is skipped with only fetch and log events. -/
theorem product_filter_gate_witness :
    productFilterAllows "gold,platinum"
      (Js.obj [("title", Js.str "Platinum Annual Membership")]) = true ∧
    (processNewMembershipOrder envGoldPlatinum "7" []).1 =
      Except.ok (ProcessResult.skipped (some "Product filter mismatch") none) := by
  constructor
  · exact product_filter_gate.1 (Js.obj [("title", Js.str "Platinum Annual Membership")]) rfl
  · obtain ⟨heq, -⟩ := product_filter_gate.2 envGoldPlatinum "7" [] orderTrialClass
      rfl rfl rfl
    rw [heq]
